import Mathlib

set_option maxRecDepth 100000

/-!
Verification development for the OCR invoice extraction engine
(`src/pages/OCRInvoice/OCRParser.js` and its variants).

The JavaScript source is shallowly embedded: JS numbers are modelled as an
inductive `JSNumber` over exact rationals (IEEE-754 rounding is not modelled;
every concrete value appearing in the claims is exactly representable, and no
statement proved here depends on rounding of inexact values), strings are
processed as `List Char`, and the regular expressions of the source are
hand-compiled into executable scanners with the same matching semantics
(leftmost match, greedy repetition, alternatives in order).

Rational arithmetic is expressed through `mkRat`/`Rat.divInt` based wrappers
(`qMul`, `qAdd`, ...) so that all concrete evaluations reduce in the kernel.
-/

/-! ## Kernel-reducible rational arithmetic -/

def qMul (a b : ℚ) : ℚ := mkRat (a.num * b.num) (a.den * b.den)

def qAdd (a b : ℚ) : ℚ := mkRat (a.num * b.den + b.num * a.den) (a.den * b.den)

def qSub (a b : ℚ) : ℚ := mkRat (a.num * b.den - b.num * a.den) (a.den * b.den)

def qDiv (a b : ℚ) : ℚ := Rat.divInt (a.num * b.den) (a.den * b.num)

def qAbs (a : ℚ) : ℚ := mkRat a.num.natAbs a.den

def qNeg (a : ℚ) : ℚ := Rat.neg a

def qMax (a b : ℚ) : ℚ := if a ≤ b then b else a

/-- `10 ^ e` for an integer exponent, kernel-reducible. -/
def qPow10 (e : ℤ) : ℚ :=
  if 0 ≤ e then mkRat ((10 : ℤ) ^ e.toNat) 1 else mkRat 1 ((10 : ℕ) ^ (-e).toNat)

theorem qMul_eq (a b : ℚ) : qMul a b = a * b := by
  rw [qMul, Rat.mul_def, Rat.normalize_eq_mkRat]

theorem qAdd_eq (a b : ℚ) : qAdd a b = a + b := by
  rw [qAdd, Rat.add_def, Rat.normalize_eq_mkRat]

/-! ## JS number values

JS `number` results are modelled as `NaN`, signed infinities, or an exact
rational.  (Finite doubles are modelled as exact rationals; see header note.) -/

inductive JSNumber where
  | nan : JSNumber
  | inf : JSNumber
  | ninf : JSNumber
  | finite (q : ℚ) : JSNumber
deriving DecidableEq, Repr

/-- JS truthiness of a `number`-or-`null` value: `null`, `0` and `NaN` are
falsy, everything else (including infinities) is truthy. -/
def jsTruthy : Option JSNumber → Bool
  | none => false
  | some JSNumber.nan => false
  | some (JSNumber.finite q) => !(q = 0)
  | some _ => true

/-! ## Character and string utilities -/

def isAsciiDigit (c : Char) : Bool := '0' ≤ c && c ≤ '9'

/-- The whitespace class used for JS `\s` / `trim` in this development.
The source lines never contain the more exotic Unicode space characters. -/
def isWsChar (c : Char) : Bool := c = ' ' || c = '\t' || c = '\n' || c = '\r'

def toLowerL (cs : List Char) : List Char := cs.map Char.toLower

def toUpperL (cs : List Char) : List Char := cs.map Char.toUpper

def trimL (cs : List Char) : List Char :=
  ((cs.dropWhile isWsChar).reverse.dropWhile isWsChar).reverse

/-- `pat` occurs as a contiguous substring of `hay`. -/
def containsL (pat : List Char) : List Char → Bool
  | [] => pat.isPrefixOf ([] : List Char)
  | c :: cs => pat.isPrefixOf (c :: cs) || containsL pat cs

/-- Case-insensitive substring test, as with a `/keyword/i` regex `.test`. -/
def containsCI (hay : List Char) (pat : String) : Bool :=
  containsL pat.toList (toLowerL hay)

/-- Substring test for a regex `a\s*b`: `a`, then any run of whitespace,
then `b`, somewhere in `hay` (which is already lowercased by callers). -/
def containsWsGap (hay : List Char) (a b : String) : Bool :=
  let rec go : List Char → Bool
    | [] => a.toList.isPrefixOf ([] : List Char) && b.toList.isPrefixOf ([] : List Char)
    | c :: cs =>
      (a.toList.isPrefixOf (c :: cs) &&
        b.toList.isPrefixOf (((c :: cs).drop a.length).dropWhile isWsChar)) || go cs
  go hay

/-- JS `String.includes` for a single character. -/
def hasC : List Char → Char → Bool
  | [], _ => false
  | c :: cs, a => c = a || hasC cs a

/-- JS `String.split(',')`. -/
def splitOnComma : List Char → List (List Char)
  | [] => [[]]
  | c :: cs =>
    if c = ',' then [] :: splitOnComma cs
    else
      match splitOnComma cs with
      | [] => [[c]]
      | p :: ps => (c :: p) :: ps

/-- Last index of `c` in `cs`, `-1` when absent (JS `lastIndexOf`). -/
def lastIndexOfC (cs : List Char) (c : Char) : Int :=
  match cs.reverse.findIdx? (· = c) with
  | none => -1
  | some j => (cs.length : Int) - 1 - (j : Int)

/-- Replace the first occurrence of `o` by `n` (JS `replace(o, n)` with a
string argument replaces only the first occurrence). -/
def replaceFirstC (o n : Char) : List Char → List Char
  | [] => []
  | c :: cs => if c = o then n :: cs else c :: replaceFirstC o n cs

def digitsToNat (ds : List Char) : ℕ :=
  ds.foldl (fun a c => 10 * a + (c.toNat - 48)) 0

/-! ## `parseFloat` (ECMA-262 model)

`parseFloat` skips leading whitespace, accepts an optional sign, then takes
the longest prefix that is a `StrDecimalLiteral`: the literal `Infinity`, or
decimal digits with an optional fraction and an optional exponent part.
If no such prefix exists the result is `NaN`; trailing garbage is ignored. -/

def parseFloatCore (cs : List Char) (neg : Bool) : JSNumber :=
  if "Infinity".toList.isPrefixOf cs then
    if neg then JSNumber.ninf else JSNumber.inf
  else
    let ip := cs.takeWhile isAsciiDigit
    let r1 := cs.dropWhile isAsciiDigit
    let fp :=
      match r1 with
      | '.' :: rest => rest.takeWhile isAsciiDigit
      | _ => []
    let r2 :=
      match r1 with
      | '.' :: rest => rest.dropWhile isAsciiDigit
      | _ => r1
    if ip.isEmpty && fp.isEmpty then JSNumber.nan
    else
      let expPart : ℤ :=
        match r2 with
        | 'e' :: rest | 'E' :: rest =>
          (match rest with
           | '+' :: ds =>
             if (ds.takeWhile isAsciiDigit).isEmpty then 0
             else (digitsToNat (ds.takeWhile isAsciiDigit) : ℤ)
           | '-' :: ds =>
             if (ds.takeWhile isAsciiDigit).isEmpty then 0
             else -(digitsToNat (ds.takeWhile isAsciiDigit) : ℤ)
           | ds =>
             if (ds.takeWhile isAsciiDigit).isEmpty then 0
             else (digitsToNat (ds.takeWhile isAsciiDigit) : ℤ))
        | _ => 0
      let mantissa : ℚ :=
        mkRat (digitsToNat ip * 10 ^ fp.length + digitsToNat fp) (10 ^ fp.length)
      let v := qMul mantissa (qPow10 expPart)
      JSNumber.finite (if neg then qNeg v else v)

def parseFloat (s : String) : JSNumber :=
  match s.toList.dropWhile isWsChar with
  | '+' :: rest => parseFloatCore rest false
  | '-' :: rest => parseFloatCore rest true
  | rest => parseFloatCore rest false

/-! ## `DynamicPatternParser.parseNumber` (OCRParser.js lines 398-440) -/

/-- The currency symbols stripped by `parseNumber`: `[₹$€£¥₩]`. -/
def parseNumberCurrency : List Char := ['₹', '$', '€', '£', '¥', '₩']

/-- `isNaN(num) ? null : num` applied to `parseFloat` of a character list. -/
def floatOrNull (cs : List Char) : Option JSNumber :=
  match parseFloat (String.mk cs) with
  | JSNumber.nan => none
  | v => some v

/-- Step 1 of `parseNumber`: strip currency symbols, then `trim`. -/
def parseNumberClean (s : String) : List Char :=
  trimL ((s.toList).filter (fun c => !parseNumberCurrency.contains c))

/-- The separator-normalization core of `parseNumber` (the source's
`hasComma`/`hasDot`/`hasSpace` branching on the cleaned string). -/
def parseNumberCanon (t1 : List Char) : List Char :=
  let hasComma := hasC t1 ','
  let hasDot := hasC t1 '.'
  let hasSpace := hasC t1 ' '
  let c1 := if hasSpace then t1.filter (fun c => !isWsChar c) else t1
  if hasComma && hasDot then
    if lastIndexOfC c1 ',' < lastIndexOfC c1 '.' then c1.filter (· ≠ ',')
    else replaceFirstC ',' '.' (c1.filter (· ≠ '.'))
  else if hasComma then
    let parts := splitOnComma c1
    if parts.length = 2 && (parts.getD 1 []).length = 2 then
      replaceFirstC ',' '.' c1
    else c1.filter (· ≠ ',')
  else c1

/-- Embedding of `DynamicPatternParser.parseNumber`.  `none` models `null`. -/
def parseNumber (s : String) : Option JSNumber :=
  if s = "" then none
  else floatOrNull (parseNumberCanon (parseNumberClean s))

/-- The separator normalization as worded by the specification (§4.2 steps
2-4): remove spaces if any; with both `,` and `.` present *in the resulting
string*, the separator occurring last is the decimal separator and the other
is stripped (a `,` decimal separator is rewritten to `.`); with only `,`, it
is a decimal separator exactly when it is the only comma and is followed by
exactly two digits, otherwise a thousands separator.  Written from the
specification text, to be compared with `parseNumberCanon`. -/
def parseNumberSpecCanon (t1 : List Char) : List Char :=
  let t2 := if hasC t1 ' ' then t1.filter (fun c => !isWsChar c) else t1
  if hasC t2 ',' && hasC t2 '.' then
    if lastIndexOfC t2 ',' < lastIndexOfC t2 '.' then t2.filter (· ≠ ',')
    else replaceFirstC ',' '.' (t2.filter (· ≠ '.'))
  else if hasC t2 ',' then
    let parts := splitOnComma t2
    if parts.length = 2 && ((parts.getD 1 []).length = 2 &&
        (parts.getD 1 []).all isAsciiDigit) then
      replaceFirstC ',' '.' t2
    else t2.filter (· ≠ ',')
  else t2

/-- The specification's numeric-normalization algorithm (§4.2 steps 1-5),
written from the specification text, to be compared with `parseNumber`. -/
def parseNumberSpec (s : String) : Option JSNumber :=
  if s = "" then none
  else floatOrNull (parseNumberSpecCanon (parseNumberClean s))

/-- A string made of digits, separators and spaces only — the shape of the
numeric tokens the surrounding extractors feed into `parseNumber`. -/
def numericTokenish (s : String) : Bool :=
  s.toList.all (fun c => isAsciiDigit c || c = ',' || c = '.' || c = ' ')

/-! ## `DynamicPatternParser.validateItem` (OCRParser.js lines 368-396) -/

structure CandidateItem where
  name : String
  qty : Option JSNumber
  rate : Option JSNumber
  total : Option JSNumber
deriving DecidableEq, Repr

/-- JS `Math.round`: round half toward positive infinity. -/
def jsRound (q : ℚ) : ℤ := (qAdd q (mkRat 1 2)).floor

/-- The arithmetic-consistency check of `validateItem`:
`|qty * rate - total| ≤ max(total * 0.15, 1)`. -/
def itemToleranceOk (q r t : ℚ) : Bool :=
  qAbs (qSub (qMul q r) t) ≤ qMax (qMul t (mkRat 15 100)) 1

/-- The penny-rounding escape of `validateItem`:
`|round(qty * rate * 100) / 100 - total| ≤ 0.02`. -/
def itemRoundEscapeOk (q r t : ℚ) : Bool :=
  qAbs (qSub (qDiv (mkRat (jsRound (qMul (qMul q r) (mkRat 100 1))) 1) (mkRat 100 1)) t)
    ≤ mkRat 2 100

/-- Embedding of `DynamicPatternParser.validateItem`.  Following the source,
a candidate that fails the tolerance check and the rounding escape is still
accepted (the source only logs a warning and returns `true`); `null`, `0`,
`NaN` and out-of-range magnitudes are rejected.  In the non-finite cases the
source's falsy / `isNaN` / range guards all yield `false`, which the final
catch-all branch reproduces. -/
def validateItem (it : CandidateItem) : Bool :=
  if it.name.length < 2 then false
  else
    match it.qty, it.rate, it.total with
    | some (JSNumber.finite q), some (JSNumber.finite r), some (JSNumber.finite t) =>
      if q = 0 || r = 0 || t = 0 then false
      else if q ≤ 0 || r ≤ 0 || t ≤ 0 then false
      else if (mkRat 100000 1) < q || (mkRat 1000000 1) < r || (mkRat 10000000 1) < t then
        false
      else if itemToleranceOk q r t then true
      else if itemRoundEscapeOk q r t then true
      else true
    | _, _, _ => false

/-! ## Supporting lemmas for the `parseNumber` refinement -/

theorem hasC_filter_kept (l : List Char) (p : Char → Bool) (a : Char) (hp : p a = true) :
    hasC (l.filter p) a = hasC l a := by
  induction l with
  | nil => rfl
  | cons c cs ih =>
    by_cases hc : p c = true
    · simp [List.filter_cons, hc, hasC, ih]
    · have hne : ¬(c = a) := fun h => hc (h ▸ hp)
      simp [List.filter_cons, hc, hasC, ih, hne]

theorem hasC_iff_mem (l : List Char) (a : Char) : hasC l a = true ↔ a ∈ l := by
  induction l with
  | nil => simp [hasC]
  | cons c cs ih =>
    simp only [hasC, Bool.or_eq_true, decide_eq_true_eq, ih, List.mem_cons]
    constructor
    · rintro (h | h)
      · exact Or.inl h.symm
      · exact Or.inr h
    · rintro (h | h)
      · exact Or.inl h.symm
      · exact Or.inr h

theorem mem_splitOnComma (l part : List Char) (hpart : part ∈ splitOnComma l) :
    ∀ c ∈ part, c ∈ l ∧ ¬(c = ',') := by
  induction l generalizing part with
  | nil =>
    simp only [splitOnComma, List.mem_singleton] at hpart
    subst hpart
    intro c hc
    simp at hc
  | cons d ds ih =>
    by_cases hd : d = ','
    · rw [splitOnComma, if_pos hd] at hpart
      rcases List.mem_cons.mp hpart with h | h
      · subst h; intro c hc; simp at hc
      · intro c hc
        have := ih part h c hc
        exact ⟨List.mem_cons_of_mem _ this.1, this.2⟩
    · rw [splitOnComma, if_neg hd] at hpart
      cases hsp : splitOnComma ds with
      | nil =>
        rw [hsp] at hpart
        simp only [List.mem_singleton] at hpart
        subst hpart
        intro c hc
        rcases List.mem_cons.mp hc with h | h
        · subst h; exact ⟨List.mem_cons_self _ _, hd⟩
        · simp at h
      | cons p ps =>
        rw [hsp] at hpart
        rcases List.mem_cons.mp hpart with h | h
        · subst h
          intro c hc
          rcases List.mem_cons.mp hc with h | h
          · subst h; exact ⟨List.mem_cons_self _ _, hd⟩
          · have hpmem : p ∈ splitOnComma ds := by rw [hsp]; exact List.mem_cons_self _ _
            have := ih p hpmem c h
            exact ⟨List.mem_cons_of_mem _ this.1, this.2⟩
        · intro c hc
          have hpsmem : part ∈ splitOnComma ds := by rw [hsp]; exact List.mem_cons_of_mem _ h
          have := ih part hpsmem c hc
          exact ⟨List.mem_cons_of_mem _ this.1, this.2⟩

theorem mem_of_mem_dropWhileWs (l : List Char) (c : Char) (hc : c ∈ l.dropWhile isWsChar) :
    c ∈ l := by
  induction l with
  | nil => simp at hc
  | cons d ds ih =>
    rw [List.dropWhile_cons] at hc
    by_cases hd : isWsChar d = true
    · rw [if_pos hd] at hc
      exact List.mem_cons_of_mem _ (ih hc)
    · rw [if_neg hd] at hc
      exact hc

theorem mem_of_mem_trimL (l : List Char) (c : Char) (hc : c ∈ trimL l) : c ∈ l := by
  unfold trimL at hc
  rw [List.mem_reverse] at hc
  have h1 := mem_of_mem_dropWhileWs _ _ hc
  rw [List.mem_reverse] at h1
  exact mem_of_mem_dropWhileWs _ _ h1

/-- Dropping a conjunct that is known to be `true` from an `if` condition. -/
theorem ifB_and_drop (b1 b2 b3 : Bool) (h3 : b3 = true) {α : Sort _} (a c : α) :
    (if (b1 && b2) = true then a else c) = (if (b1 && (b2 && b3)) = true then a else c) := by
  rw [h3, Bool.and_true]

/-- On lists whose characters are digits, separators or spaces, the second
position of a comma-split contains only digits once dots and spaces are
known to be absent. -/
theorem splitOnComma_digits (t2 : List Char)
    (hchars : ∀ c ∈ t2, isAsciiDigit c = true ∨ c = ',' ∨ c = '.' ∨ c = ' ')
    (hdo : ¬('.' ∈ t2)) (hnosp : ¬(' ' ∈ t2)) :
    ((splitOnComma t2).getD 1 []).all isAsciiDigit = true := by
  apply List.all_eq_true.mpr
  intro c hcp
  cases hsplit : splitOnComma t2 with
  | nil => rw [hsplit] at hcp; simp at hcp
  | cons p0 rest =>
    cases rest with
    | nil => rw [hsplit] at hcp; simp at hcp
    | cons p1 ps =>
      rw [hsplit] at hcp
      simp only [List.getD_cons_succ, List.getD_cons_zero] at hcp
      have hp1 : p1 ∈ splitOnComma t2 := by
        rw [hsplit]; exact List.mem_cons_of_mem _ (List.mem_cons_self _ _)
      have hct2 := mem_splitOnComma t2 p1 hp1 c hcp
      rcases hchars c hct2.1 with hd | hd | hd | hd
      · exact hd
      · exact absurd hd hct2.2
      · exact absurd (hd ▸ hct2.1) hdo
      · exact absurd (hd ▸ hct2.1) hnosp

/-- Core of the claim-C2 refinement: on cleaned lists built from digits,
separators and spaces, the source's separator normalization computes exactly
the specification's algorithm. -/
theorem parseNumberCanon_eq_spec (t1 : List Char)
    (hchars : ∀ c ∈ t1, isAsciiDigit c = true ∨ c = ',' ∨ c = '.' ∨ c = ' ') :
    parseNumberCanon t1 = parseNumberSpecCanon t1 := by
  unfold parseNumberCanon parseNumberSpecCanon
  by_cases hsp : hasC t1 ' ' = true
  · simp only [hsp, if_true,
      hasC_filter_kept t1 (fun c => !isWsChar c) ',' (by decide),
      hasC_filter_kept t1 (fun c => !isWsChar c) '.' (by decide)]
    by_cases hco : hasC t1 ',' = true
    · by_cases hdo : hasC t1 '.' = true
      · simp [hco, hdo]
      · simp only [hco, hdo, Bool.and_false, Bool.false_eq_true, if_false, if_true]
        have hdig := splitOnComma_digits (t1.filter (fun c => !isWsChar c))
          (fun c hc => hchars c (List.mem_filter.mp hc).1)
          (fun hmem => hdo ((hasC_iff_mem _ _).mpr (List.mem_filter.mp hmem).1))
          (fun hmem => by
            have := (List.mem_filter.mp hmem).2
            simp [isWsChar] at this)
        exact ifB_and_drop _ _ _ hdig _ _
    · simp [hco]
  · simp only [hsp, Bool.false_eq_true, if_false]
    by_cases hco : hasC t1 ',' = true
    · by_cases hdo : hasC t1 '.' = true
      · simp [hco, hdo]
      · simp only [hco, hdo, Bool.and_false, Bool.false_eq_true, if_false, if_true]
        have hdig := splitOnComma_digits t1 hchars
          (fun hmem => hdo ((hasC_iff_mem _ _).mpr hmem))
          (fun hmem => hsp ((hasC_iff_mem _ _).mpr hmem))
        exact ifB_and_drop _ _ _ hdig _ _
    · simp [hco]

/-- The claim-C2 refinement for full strings. -/
theorem parseNumber_refines_spec (s : String) (h : numericTokenish s = true) :
    parseNumber s = parseNumberSpec s := by
  by_cases hs : s = ""
  · simp [parseNumber, parseNumberSpec, hs]
  · rw [parseNumber, parseNumberSpec, if_neg hs, if_neg hs]
    congr 1
    apply parseNumberCanon_eq_spec
    intro c hcmem
    have hmem : c ∈ s.toList :=
      (List.mem_filter.mp (mem_of_mem_trimL _ _ hcmem)).1
    have := List.all_eq_true.mp h c hmem
    simp only [Bool.or_eq_true, decide_eq_true_eq] at this
    tauto

/-! ## Claims C1, C2, C9 -/

/-- The candidate quantity=2, rate=15.00, amount=30.00 of claim C1. -/
def c1Exact : CandidateItem :=
  ⟨"Widget", some (JSNumber.finite 2), some (JSNumber.finite 15), some (JSNumber.finite 30)⟩

/-- The candidate quantity=3, rate=10.00, amount=31.50 of claim C1. -/
def c1Close : CandidateItem :=
  ⟨"Widget", some (JSNumber.finite 3), some (JSNumber.finite 10),
    some (JSNumber.finite (mkRat 63 2))⟩

/-- The candidate quantity=3, rate=10.00, amount=50.00 of claim C1. -/
def c1Off : CandidateItem :=
  ⟨"Widget", some (JSNumber.finite 3), some (JSNumber.finite 10), some (JSNumber.finite 50)⟩

/-- Claim C1, counterexample.  The claim asserts the item validator rejects
quantity=3, rate=10.00, amount=50.00 (67% over tolerance).  `validateItem`
returns `true` on that candidate: after the tolerance check and the
penny-rounding escape both fail, the source only logs a warning and still
returns `true`, so the candidate is accepted, refuting the claimed
rejection. -/
theorem C1_counterexample :
    validateItem c1Off = true ∧
    itemToleranceOk 3 10 50 = false ∧ itemRoundEscapeOk 3 10 50 = false := by
  decide

/-- Claim C1, amended.  The item validator accepts quantity=2, rate=15.00,
amount=30.00 (exact product) and quantity=3, rate=10.00, amount=31.50
(within the 15% tolerance), and also accepts quantity=3, rate=10.00,
amount=50.00 even though that candidate fails the tolerance check
max(amount*0.15, 1) and the penny-rounding escape: such candidates are
retained with a logged inconsistency rather than dropped. -/
theorem C1_validator :
    validateItem c1Exact = true ∧ itemToleranceOk 2 15 30 = true ∧
    validateItem c1Close = true ∧ itemToleranceOk 3 10 (mkRat 63 2) = true ∧
    validateItem c1Off = true ∧
    itemToleranceOk 3 10 50 = false ∧ itemRoundEscapeOk 3 10 50 = false := by
  decide

/-- Claim C2.  The locale normalizer `parseNumber` maps the six example
tokens to their canonical decimal values, and on every string made of
digits, separators and spaces it computes exactly the specification's
fixed algorithm `parseNumberSpec` (in particular, with both `,` and `.`
present the separator occurring last in the string is the decimal separator
and the other is stripped). -/
theorem C2_parseNumber :
    parseNumber "1,234.56" = some (JSNumber.finite (mkRat 123456 100)) ∧
    parseNumber "1.234,56" = some (JSNumber.finite (mkRat 123456 100)) ∧
    parseNumber "1 234,56" = some (JSNumber.finite (mkRat 123456 100)) ∧
    parseNumber "45" = some (JSNumber.finite 45) ∧
    parseNumber ",45" = some (JSNumber.finite (mkRat 45 100)) ∧
    parseNumber "1,234" = some (JSNumber.finite 1234) ∧
    ∀ s, numericTokenish s = true → parseNumber s = parseNumberSpec s := by
  refine ⟨by decide, by decide, by decide, by decide, by decide, by decide, ?_⟩
  exact parseNumber_refines_spec

/-- Claim C2, witness: the refinement component applied at a concrete
European-format token. -/
theorem C2_witness :
    parseNumber "1.234,56" = parseNumberSpec "1.234,56" :=
  C2_parseNumber.2.2.2.2.2.2 "1.234,56" (by decide)

/-- Claim C9, counterexample.  The claim asserts `parseNumber` returns a
finite number or `null` for every input string; on the input `"Infinity"`
it returns positive infinity (ECMA `parseFloat` accepts the literal
`Infinity`, which is not `NaN` and hence not filtered to `null`). -/
theorem C9_counterexample :
    ¬ (parseNumber "Infinity" = none ∨
       ∃ q : ℚ, parseNumber "Infinity" = some (JSNumber.finite q)) := by
  have h : parseNumber "Infinity" = some JSNumber.inf := by decide
  rintro (h0 | ⟨q, hq⟩)
  · rw [h] at h0
    exact Option.noConfusion h0
  · rw [h] at hq
    exact JSNumber.noConfusion (Option.some.inj hq)

/-- Claim C9, amended.  `parseNumber` is total and never yields `NaN`: for
every input string it returns `null` or a non-`NaN` number (a finite value,
or an infinity for strings whose cleaned form is the literal `Infinity`
with an optional sign); a token that fails to parse is discarded via the
`null` result rather than propagating `NaN` or throwing. -/
theorem C9_parseNumber_total :
    ∀ s : String, parseNumber s = none ∨
      ∃ v, parseNumber s = some v ∧ v ≠ JSNumber.nan := by
  intro s
  rw [parseNumber]
  by_cases hs : s = ""
  · rw [if_pos hs]
    exact Or.inl rfl
  · rw [if_neg hs, floatOrNull]
    cases hpf : parseFloat (String.mk (parseNumberCanon (parseNumberClean s))) with
    | nan => exact Or.inl rfl
    | inf => exact Or.inr ⟨_, rfl, by simp⟩
    | ninf => exact Or.inr ⟨_, rfl, by simp⟩
    | finite q => exact Or.inr ⟨_, rfl, by simp⟩

/-! ## `DynamicPatternParser.findTableStart` / `findTableEnd`
(OCRParser.js lines 233-300) -/

def itemAliases : List String :=
  ["item", "items", "description", "desc", "product", "products",
   "particulars", "service", "services", "goods", "details", "name",
   "commodity", "article", "specification"]

def quantityAliases : List String :=
  ["qty", "quantity", "quan", "units", "unit", "nos", "no",
   "amount", "count", "pcs", "pc", "ea", "each"]

def rateAliases : List String :=
  ["rate", "price", "unitprice", "unit price", "unit_price", "cost",
   "each", "unit cost", "per unit", "unit rate", "net price"]

def totalAliases : List String :=
  ["total", "amount", "linetotal", "line total", "sum", "value",
   "ext price", "extended", "net worth", "line amount", "subtotal"]

/-- `new RegExp(aliases.join('|'), 'i').test(line)`: some alias occurs as a
substring of the lowercased line (all aliases are lowercase and contain no
regex metacharacters after escaping). -/
def aliasTest (aliases : List String) (lowerLine : List Char) : Bool :=
  aliases.any (fun a => containsL a.toList lowerLine)

/-- The number of column roles (item, quantity, rate, total) with at least
one alias present on the line. -/
def headerRoleMatches (line : String) : Nat :=
  let lower := toLowerL line.toList
  (if aliasTest itemAliases lower then 1 else 0) +
  (if aliasTest quantityAliases lower then 1 else 0) +
  (if aliasTest rateAliases lower then 1 else 0) +
  (if aliasTest totalAliases lower then 1 else 0)

def findTableStartGo : Nat → List String → Int
  | _, [] => -1
  | i, l :: ls =>
    if 30 ≤ i then -1
    else if 2 ≤ headerRoleMatches l then (i : Int)
    else findTableStartGo (i + 1) ls

/-- Embedding of `DynamicPatternParser.findTableStart`: index of the first
line among the first 30 matching at least two column roles, `-1` if none. -/
def findTableStart (lines : List String) : Int := findTableStartGo 0 lines

/-- The footer keywords of `DynamicPatternParser.findTableEnd`. -/
def footerKeywords : List String :=
  ["subtotal", "sub-total", "sub total", "grand total", "grandtotal",
   "total due", "amount due", "tax", "vat", "gst", "thank you", "thanks",
   "notes", "terms", "conditions", "payment", "please pay"]

def isFooterLine (line : String) : Bool :=
  footerKeywords.any (fun k => containsL k.toList (toLowerL line.toList))

/-- Index of the first footer line, or the length of the list. -/
def firstFooterIdx : List String → Nat
  | [] => 0
  | l :: ls => if isFooterLine l then 0 else 1 + firstFooterIdx ls

/-- Embedding of `DynamicPatternParser.findTableEnd`: scanning from
`max(startIdx + 1, 0)`, the index of the first line containing a footer
keyword, else `lines.length` (also when the scan start is past the end,
in which case the source loop body never runs). -/
def findTableEnd (lines : List String) (startIdx : Int) : Nat :=
  let start := (max (startIdx + 1) 0).toNat
  if lines.length ≤ start then lines.length
  else start + firstFooterIdx (lines.drop start)

/-- The scan bounds computed by `DynamicPatternParser.extractItems` (lines
294-300): items are scanned in `[max(startIdx + 1, 0), findTableEnd)`. -/
def tableBounds (lines : List String) : Nat × Nat :=
  (((max (findTableStart lines + 1) 0).toNat : Nat),
    findTableEnd lines (findTableStart lines))

/-- The index of the first element satisfying `p`, if any. -/
def firstIdxWhere {α : Type} (p : α → Bool) : List α → Option Nat
  | [] => none
  | a :: as => if p a then some 0 else (firstIdxWhere p as).map (· + 1)

/-- The header rule as worded by claim C5: the header row is the first line
among the first 30 whose text contains alias keywords for two or more
distinct column roles.  Written from the claim, for comparison with
`findTableStart`. -/
def findTableStartClaim (lines : List String) : Int :=
  match firstIdxWhere (fun l => 2 ≤ headerRoleMatches l) (lines.take 30) with
  | some k => (k : Int)
  | none => -1

/-- The footer rule as worded by claim C5 but with the source's full
keyword list: `endIndex` is the first line at or after the scan start
containing a footer keyword, else the sequence length. -/
def findTableEndClaim (lines : List String) (start : Nat) : Nat :=
  match firstIdxWhere isFooterLine (lines.drop start) with
  | some k => start + k
  | none => lines.length

/-- The footer keyword list exactly as enumerated by claim C5 (a strict
subset of the source's `footerKeywords`). -/
def c5FooterKeywords : List String :=
  ["subtotal", "grand total", "total due", "amount due", "tax", "vat",
   "gst", "thank you", "notes", "terms", "payment"]

theorem firstIdxWhere_lt {α : Type} (l : List α) (p : α → Bool) (k : Nat)
    (h : firstIdxWhere p l = some k) : k < l.length := by
  induction l generalizing k with
  | nil => simp [firstIdxWhere] at h
  | cons a as ih =>
    rw [firstIdxWhere] at h
    by_cases hp : p a = true
    · rw [if_pos hp] at h
      cases h
      simp
    · rw [if_neg hp] at h
      cases hf : firstIdxWhere p as with
      | none => rw [hf] at h; simp at h
      | some j =>
        rw [hf] at h
        simp at h
        have := ih j hf
        simp only [List.length_cons]
        omega

theorem findTableStartGo_spec (ls : List String) :
    ∀ i : Nat, i ≤ 30 →
      findTableStartGo i ls =
        (match firstIdxWhere (fun l => 2 ≤ headerRoleMatches l) (ls.take (30 - i)) with
         | some k => ((i + k : Nat) : Int)
         | none => -1) := by
  induction ls with
  | nil =>
    intro i hi
    simp [findTableStartGo, firstIdxWhere]
  | cons l ls ih =>
    intro i hi
    rw [findTableStartGo]
    by_cases h30 : 30 ≤ i
    · have hieq : i = 30 := le_antisymm hi h30
      subst hieq
      simp [firstIdxWhere]
    · rw [if_neg h30]
      have hsub : 30 - i = (30 - (i + 1)) + 1 := by omega
      rw [hsub, List.take_succ_cons]
      simp only [firstIdxWhere]
      by_cases hp : 2 ≤ headerRoleMatches l
      · rw [if_pos hp, if_pos (by simpa using hp)]
        simp
      · rw [if_neg hp, if_neg (by simpa using hp), ih (i + 1) (by omega)]
        rcases hf : firstIdxWhere (fun l => 2 ≤ headerRoleMatches l) (ls.take (30 - (i + 1))) with _ | k
        · rfl
        · show ((i + 1 + k : Nat) : Int) = ((i + (k + 1) : Nat) : Int)
          congr 1
          omega

theorem firstFooterIdx_spec (ls : List String) :
    firstFooterIdx ls =
      (match firstIdxWhere isFooterLine ls with
       | some k => k
       | none => ls.length) := by
  induction ls with
  | nil => simp [firstFooterIdx, firstIdxWhere]
  | cons l ls ih =>
    rw [firstFooterIdx]
    simp only [firstIdxWhere]
    by_cases hp : isFooterLine l = true
    · rw [if_pos hp, if_pos hp]
    · rw [if_neg hp, if_neg hp]
      rw [ih]
      rcases hf : firstIdxWhere isFooterLine ls with _ | k
      · show 1 + ls.length = (l :: ls).length
        simp only [List.length_cons]
        omega
      · show 1 + k = k + 1
        omega


def c5Example : List String :=
  ["Invoice ABC", "Description Qty Rate Total", "Widget 2 15.00 30.00",
   "Subtotal: 100.00"]

/-- The counterexample document for claim C5: the trailing line contains
the keyword `thanks`, which ends the table in the source but is not in the
claim's keyword list. -/
def c5CexLines : List String :=
  ["Description Qty Rate Total", "Widget 2 15.00 30.00", "Thanks"]

/-- Claim C5, counterexample.  On the document `c5CexLines`, `endIndex` is
2 (the line `"Thanks"`), yet neither line 1 nor line 2 contains any of the
footer keywords enumerated by the claim, so the claim predicts `endIndex`
= 3 (the sequence length).  The source's keyword set is strictly larger
than the claim's (it also has sub-total, sub total, grandtotal, thanks,
conditions, please pay). -/
theorem C5_counterexample :
    tableBounds c5CexLines = (1, 2) ∧
    c5CexLines.length = 3 ∧
    (c5FooterKeywords.all
      (fun k => !(containsL k.toList (toLowerL "Widget 2 15.00 30.00".toList)))) = true ∧
    (c5FooterKeywords.all
      (fun k => !(containsL k.toList (toLowerL "Thanks".toList)))) = true := by
  decide

/-- Claim C5, amended.  The header row is the first line among the first 30
whose text contains alias keywords (case-insensitive substring match) for
two or more distinct column roles, and `startIndex` is that line's index
plus 1; `endIndex` is the index of the first line at or after `startIndex`
containing a footer keyword — where the footer keyword set is the source's
full list (the claim's list plus sub-total, sub total, grandtotal, thanks,
conditions and please pay) — and equals the sequence length when no footer
keyword occurs.  For the example document, `startIndex` is the header's
index + 1 = 2 and `endIndex` is the subtotal line's index 3. -/
theorem C5_tableBounds :
    (∀ lines, findTableStart lines = findTableStartClaim lines) ∧
    (∀ lines s, findTableEnd lines s = findTableEndClaim lines ((max (s + 1) 0).toNat)) ∧
    (∀ lines (i : Nat), findTableStart lines = (i : Int) →
      (tableBounds lines).1 = i + 1) ∧
    tableBounds c5Example = (2, 3) := by
  refine ⟨?_, ?_, ?_, by decide⟩
  · intro lines
    have h := findTableStartGo_spec lines 0 (by omega)
    simpa [findTableStart, findTableStartClaim] using h
  · intro lines s
    rw [findTableEnd, findTableEndClaim]
    set start := (max (s + 1) 0).toNat with hstart
    by_cases hlen : lines.length ≤ start
    · rw [if_pos hlen]
      rw [List.drop_eq_nil_of_le hlen]
      rfl
    · rw [if_neg hlen, firstFooterIdx_spec]
      rcases hf : firstIdxWhere isFooterLine (lines.drop start) with _ | k
      · show start + (lines.drop start).length = lines.length
        simp only [List.length_drop]
        omega
      · rfl
  · intro lines i h
    simp only [tableBounds, h]
    rw [max_eq_left (by omega : (0 : Int) ≤ (i : Int) + 1)]
    omega

theorem C5_witness :
    findTableStart c5Example = ((1 : Nat) : Int) ∧ (tableBounds c5Example).1 = 1 + 1 :=
  ⟨by decide, C5_tableBounds.2.2.1 c5Example 1 (by decide)⟩


/-! ## Totals extraction
(`DynamicPatternParser.extractTotals`, OCRParser.js lines 501-517, and
`InvoiceOCRParser.extractTotals`, lines 931-946) -/

/-- Greedy thousands-group loop for the regex `(?:[,.\\s]\\d{3})*`:
each iteration consumes one separator and exactly three digits. -/
def dynNumGroups : Nat → List Char → (List Char × List Char)
  | 0, cs => ([], cs)
  | fuel + 1, cs =>
    match cs with
    | sep :: d1 :: d2 :: d3 :: rest =>
      if (sep = ',' || sep = '.' || isWsChar sep) &&
          isAsciiDigit d1 && isAsciiDigit d2 && isAsciiDigit d3 then
        let gr := dynNumGroups fuel rest
        (sep :: d1 :: d2 :: d3 :: gr.1, gr.2)
      else ([], cs)
    | _ => ([], cs)

/-- Anchored match of the totals-extraction number regex
`\\d+(?:[,.\\s]\\d{3})*(?:[.,]\\d{2})?` at the start of `cs`:
the matched text and the remaining characters, or `none`. -/
def matchDynNumAt (cs : List Char) : Option (List Char × List Char) :=
  let ds := cs.takeWhile isAsciiDigit
  if ds.isEmpty then none
  else
    let r1 := cs.dropWhile isAsciiDigit
    let gr := dynNumGroups r1.length r1
    match gr.2 with
    | sep :: d1 :: d2 :: rest =>
      if (sep = '.' || sep = ',') && isAsciiDigit d1 && isAsciiDigit d2 then
        some (ds ++ gr.1 ++ [sep, d1, d2], rest)
      else some (ds ++ gr.1, gr.2)
    | _ => some (ds ++ gr.1, gr.2)

/-- `line.matchAll(numberRegex)` followed by `map(m => parseNumber(m[0]))`:
leftmost matches, scanning resumes after each match. -/
def scanDynNums : Nat → List Char → List (Option JSNumber)
  | 0, _ => []
  | _, [] => []
  | fuel + 1, c :: cs =>
    match matchDynNumAt (c :: cs) with
    | some tr => parseNumber (String.mk tr.1) :: scanDynNums fuel tr.2
    | none => scanDynNums fuel cs

/-- The parsed numeric tokens of a line, as in
`DynamicPatternParser.extractTotals`. -/
def dynNums (line : String) : List (Option JSNumber) :=
  scanDynNums line.toList.length line.toList

/-- Anchored test for the regex `sub.total` (`.` matches any character). -/
def subDotTotalAt (cs : List Char) : Bool :=
  "sub".toList.isPrefixOf cs &&
    (match cs.drop 3 with
     | [] => false
     | _ :: rest => "total".toList.isPrefixOf rest)

def containsSubDotTotal : List Char → Bool
  | [] => false
  | c :: cs => subDotTotalAt (c :: cs) || containsSubDotTotal cs

/-- `/subtotal|sub.total/i.test(line)`. -/
def subtotalPatDyn (line : String) : Bool :=
  let lower := toLowerL line.toList
  containsL "subtotal".toList lower || containsSubDotTotal lower

/-- `/tax|gst|vat/i.test(line)`. -/
def taxPatDyn (line : String) : Bool :=
  let lower := toLowerL line.toList
  containsL "tax".toList lower || containsL "gst".toList lower ||
    containsL "vat".toList lower

/-- `/(grand\\s*)?total|amount\\s*due/i.test(line)`: because the group
`(grand\\s*)?` is optional, the first alternative tests exactly for the
substring `total`. -/
def grandPatDyn (line : String) : Bool :=
  let lower := toLowerL line.toList
  containsL "total".toList lower || containsWsGap lower "amount" "due"

structure TotalsRec where
  subtotal : Option JSNumber
  tax : Option JSNumber
  grandTotal : Option JSNumber
deriving DecidableEq, Repr

/-- One loop iteration of `DynamicPatternParser.extractTotals`: skip lines
with no numeric token, otherwise assign the last token's value to each field
whose keyword pattern matches the line. -/
def totalsStepDyn (t : TotalsRec) (line : String) : TotalsRec :=
  let nums := dynNums line
  match nums.getLast? with
  | none => t
  | some val =>
    let t1 := if subtotalPatDyn line then { t with subtotal := val } else t
    let t2 := if taxPatDyn line then { t1 with tax := val } else t1
    if grandPatDyn line then { t2 with grandTotal := val } else t2

/-- `lines.slice(-20)`. -/
def lastN20 (lines : List String) : List String :=
  lines.drop (lines.length - 20)

/-- Embedding of `DynamicPatternParser.extractTotals`. -/
def extractTotalsDyn (lines : List String) : TotalsRec :=
  (lastN20 lines).foldl totalsStepDyn
    ⟨some (JSNumber.finite 0), some (JSNumber.finite 0), some (JSNumber.finite 0)⟩

structure TotalsRecInv where
  subtotal : JSNumber
  tax : JSNumber
  grandTotal : JSNumber
deriving DecidableEq, Repr

/-- `line.replace(/[^0-9.]/g, '')`. -/
def digitDotFilter (line : String) : List Char :=
  line.toList.filter (fun c => isAsciiDigit c || c = '.')

/-- `x || 0` for a JS number: `NaN` and `0` are falsy. -/
def jsOrZero (n : JSNumber) : JSNumber :=
  if n = JSNumber.nan || n = JSNumber.finite 0 then JSNumber.finite 0 else n

def subtotalPatInv (line : String) : Bool := containsCI line.toList "subtotal"

def taxPatInv (line : String) : Bool :=
  containsCI line.toList "tax" || containsCI line.toList "vat" ||
    containsCI line.toList "gst"

/-- `/total|amount\\s*due/i.test(line)`. -/
def grandPatInv (line : String) : Bool :=
  containsCI line.toList "total" || containsWsGap (toLowerL line.toList) "amount" "due"

/-- The digit-squash value `parseFloat(line.replace(/[^0-9.]/g, '')) || 0`
assigned by `InvoiceOCRParser.extractTotals`. -/
def squashValue (line : String) : JSNumber :=
  jsOrZero (parseFloat (String.mk (digitDotFilter line)))

/-- One loop iteration of `InvoiceOCRParser.extractTotals`. -/
def totalsStepInv (t : TotalsRecInv) (line : String) : TotalsRecInv :=
  let t1 := if subtotalPatInv line then { t with subtotal := squashValue line } else t
  let t2 := if taxPatInv line then { t1 with tax := squashValue line } else t1
  if grandPatInv line then { t2 with grandTotal := squashValue line } else t2

/-- Embedding of `InvoiceOCRParser.extractTotals`. -/
def extractTotalsInv (lines : List String) : TotalsRecInv :=
  (lastN20 lines).foldl totalsStepInv
    ⟨JSNumber.finite 0, JSNumber.finite 0, JSNumber.finite 0⟩

/-! ## Supporting lemmas for the totals claims -/

theorem isPrefixOf_ex (p : List Char) : ∀ l, p.isPrefixOf l = true ↔ ∃ t, l = p ++ t := by
  induction p with
  | nil =>
    intro l
    simp [List.isPrefixOf]
  | cons a as ih =>
    intro l
    cases l with
    | nil =>
      simp [List.isPrefixOf]
    | cons b bs =>
      simp only [List.isPrefixOf, Bool.and_eq_true, beq_iff_eq, ih, List.cons_append,
        List.cons.injEq]
      constructor
      · rintro ⟨hab, t, ht⟩
        exact ⟨t, hab.symm, ht⟩
      · rintro ⟨t, hab, ht⟩
        exact ⟨hab.symm, t, ht⟩

theorem containsL_of_isPrefixOf (pat l : List Char) (h : pat.isPrefixOf l = true) :
    containsL pat l = true := by
  cases l with
  | nil => exact h
  | cons c cs => simp [containsL, h]

theorem containsL_cons_of (pat : List Char) (c : Char) (cs : List Char)
    (h : containsL pat cs = true) : containsL pat (c :: cs) = true := by
  simp [containsL, h]

theorem containsL_of_drop (pat : List Char) :
    ∀ (n : Nat) (l : List Char), pat.isPrefixOf (l.drop n) = true →
      containsL pat l = true := by
  intro n
  induction n with
  | zero =>
    intro l h
    rw [List.drop_zero] at h
    exact containsL_of_isPrefixOf _ _ h
  | succ m ih =>
    intro l h
    cases l with
    | nil => exact containsL_of_isPrefixOf _ _ h
    | cons c cs =>
      rw [List.drop_succ_cons] at h
      exact containsL_cons_of _ _ _ (ih cs h)

/-- A line containing `subtotal` contains `total`. -/
theorem containsL_total_of_subtotal (hay : List Char)
    (h : containsL "subtotal".toList hay = true) :
    containsL "total".toList hay = true := by
  induction hay with
  | nil => simp [containsL] at h
  | cons c cs ih =>
    rw [containsL, Bool.or_eq_true] at h
    rcases h with h | h
    · rcases (isPrefixOf_ex _ _).mp h with ⟨t, ht⟩
      apply containsL_of_drop _ 3
      have : (c :: cs).drop 3 = "total".toList ++ t := by
        rw [ht]
        rfl
      rw [this, isPrefixOf_ex]
      exact ⟨t, rfl⟩
    · exact containsL_cons_of _ _ _ (ih h)

/-- A line matching `sub.total` contains `total`. -/
theorem containsL_total_of_subDotTotal (hay : List Char)
    (h : containsSubDotTotal hay = true) :
    containsL "total".toList hay = true := by
  induction hay with
  | nil => simp [containsSubDotTotal] at h
  | cons c cs ih =>
    rw [containsSubDotTotal, Bool.or_eq_true] at h
    rcases h with h | h
    · rw [subDotTotalAt, Bool.and_eq_true] at h
      rcases h with ⟨-, h⟩
      rcases hd : (c :: cs).drop 3 with _ | ⟨d, rest⟩
      · rw [hd] at h
        simp at h
      · rw [hd] at h
        apply containsL_of_drop _ 4
        have : (c :: cs).drop 4 = rest := by
          have h4 : (c :: cs).drop 4 = ((c :: cs).drop 3).drop 1 := by
            rw [List.drop_drop]
          rw [h4, hd, List.drop_one]
          rfl
        rw [this]
        exact h
    · exact containsL_cons_of _ _ _ (ih h)

/-- A line matching the subtotal pattern matches the grand-total pattern
(`total` occurs inside both `subtotal` and any `sub.total` form). -/
theorem grandPatDyn_of_subtotalPatDyn (line : String)
    (h : subtotalPatDyn line = true) : grandPatDyn line = true := by
  rw [subtotalPatDyn, Bool.or_eq_true] at h
  rw [grandPatDyn, Bool.or_eq_true]
  rcases h with h | h
  · exact Or.inl (containsL_total_of_subtotal _ h)
  · exact Or.inl (containsL_total_of_subDotTotal _ h)

theorem grandPatInv_of_subtotalPatInv (line : String)
    (h : subtotalPatInv line = true) : grandPatInv line = true := by
  rw [subtotalPatInv, containsCI] at h
  rw [grandPatInv, Bool.or_eq_true, containsCI]
  exact Or.inl (containsL_total_of_subtotal _ h)

theorem lastN20_of_le (ls : List String) (h : ls.length ≤ 20) : lastN20 ls = ls := by
  rw [lastN20]
  have h0 : ls.length - 20 = 0 := by omega
  rw [h0, List.drop_zero]

theorem totalsStepDyn_subtotal (t : TotalsRec) (l : String) (v : Option JSNumber)
    (hs : subtotalPatDyn l = true) (hv : (dynNums l).getLast? = some v) :
    (totalsStepDyn t l).subtotal = v := by
  simp only [totalsStepDyn]
  rw [hv]
  simp only [hs, if_true]
  by_cases ht : taxPatDyn l = true <;> by_cases hg : grandPatDyn l = true <;>
    simp [ht, hg]

theorem totalsStepDyn_tax (t : TotalsRec) (l : String) (v : Option JSNumber)
    (hs : taxPatDyn l = true) (hv : (dynNums l).getLast? = some v) :
    (totalsStepDyn t l).tax = v := by
  simp only [totalsStepDyn]
  rw [hv]
  simp only [hs, if_true]
  by_cases h1 : subtotalPatDyn l = true <;> by_cases hg : grandPatDyn l = true <;>
    simp [h1, hg]

theorem totalsStepDyn_grand (t : TotalsRec) (l : String) (v : Option JSNumber)
    (hs : grandPatDyn l = true) (hv : (dynNums l).getLast? = some v) :
    (totalsStepDyn t l).grandTotal = v := by
  simp only [totalsStepDyn]
  rw [hv]
  simp only [hs, if_true]

theorem totalsStepDyn_subtotal_skip (t : TotalsRec) (l : String)
    (h : subtotalPatDyn l = false ∨ dynNums l = []) :
    (totalsStepDyn t l).subtotal = t.subtotal := by
  simp only [totalsStepDyn]
  rcases h with h | h
  · cases hv : (dynNums l).getLast? with
    | none => rfl
    | some v =>
      simp only [h, Bool.false_eq_true, if_false]
      by_cases ht : taxPatDyn l = true <;> by_cases hg : grandPatDyn l = true <;>
        simp [ht, hg]
  · rw [h]
    rfl

theorem totalsStepDyn_tax_skip (t : TotalsRec) (l : String)
    (h : taxPatDyn l = false ∨ dynNums l = []) :
    (totalsStepDyn t l).tax = t.tax := by
  simp only [totalsStepDyn]
  rcases h with h | h
  · cases hv : (dynNums l).getLast? with
    | none => rfl
    | some v =>
      simp only [h, Bool.false_eq_true, if_false]
      by_cases h1 : subtotalPatDyn l = true <;> by_cases hg : grandPatDyn l = true <;>
        simp [h1, hg]
  · rw [h]
    rfl

theorem totalsStepDyn_grand_skip (t : TotalsRec) (l : String)
    (h : grandPatDyn l = false ∨ dynNums l = []) :
    (totalsStepDyn t l).grandTotal = t.grandTotal := by
  simp only [totalsStepDyn]
  rcases h with h | h
  · cases hv : (dynNums l).getLast? with
    | none => rfl
    | some v =>
      simp only [h, Bool.false_eq_true, if_false]
      by_cases h1 : subtotalPatDyn l = true <;> by_cases ht : taxPatDyn l = true <;>
        simp [h1, ht]
  · rw [h]
    rfl

theorem extractTotalsDyn_append (ls : List String) (l : String)
    (h : (ls ++ [l]).length ≤ 20) :
    extractTotalsDyn (ls ++ [l]) = totalsStepDyn (extractTotalsDyn ls) l := by
  rw [extractTotalsDyn, lastN20_of_le _ h, List.foldl_append, List.foldl_cons,
    List.foldl_nil, extractTotalsDyn, lastN20_of_le]
  rw [List.length_append] at h
  simp at h
  omega

theorem extractTotalsInv_append (ls : List String) (l : String)
    (h : (ls ++ [l]).length ≤ 20) :
    extractTotalsInv (ls ++ [l]) = totalsStepInv (extractTotalsInv ls) l := by
  rw [extractTotalsInv, lastN20_of_le _ h, List.foldl_append, List.foldl_cons,
    List.foldl_nil, extractTotalsInv, lastN20_of_le]
  rw [List.length_append] at h
  simp at h
  omega

theorem totalsStepInv_subtotal (t : TotalsRecInv) (l : String)
    (hs : subtotalPatInv l = true) :
    (totalsStepInv t l).subtotal = squashValue l := by
  simp only [totalsStepInv, hs, if_true]
  by_cases ht : taxPatInv l = true <;> by_cases hg : grandPatInv l = true <;>
    simp [ht, hg]

theorem totalsStepInv_sub_grand (t : TotalsRecInv) (l : String)
    (hs : subtotalPatInv l = true) :
    (totalsStepInv t l).grandTotal = squashValue l := by
  have hg := grandPatInv_of_subtotalPatInv l hs
  simp only [totalsStepInv, hg, if_true]

/-! ## Claims C6 and C10 -/

/-- Claim C6, counterexample.  The claim asserts the totals extractor sets
`subtotal` to the last numeric token of the matching line.  In the
`InvoiceOCRParser` variant the line `"Subtotal 10.00 and 5.00"` sets
`subtotal` to 10.005 — `parseFloat` of the line with every character
outside `[0-9.]` removed (`"10.005.00"`) — not to the last numeric
token 5.00. -/
theorem C6_counterexample :
    (extractTotalsInv ["Subtotal 10.00 and 5.00"]).subtotal =
      JSNumber.finite (mkRat 10005 1000) ∧
    (dynNums "Subtotal 10.00 and 5.00").getLast? = some (some (JSNumber.finite 5)) ∧
    ¬ (extractTotalsInv ["Subtotal 10.00 and 5.00"]).subtotal = JSNumber.finite 5 := by
  decide

/-- Claim C6, amended.  In the `DynamicPatternParser` variant, over the
final-20-line window: a line matching the subtotal pattern sets `subtotal`
to the last numeric token on that line (after locale normalization), and
similarly tax/vat/gst → `tax` and `(grand )?total`/`amount due` →
`grandTotal`; later matching lines overwrite earlier ones, lines not
matching a field leave it unchanged, and every field starts at 0.  The
`InvoiceOCRParser` variant instead sets a matching field to `parseFloat`
of the line with every character outside digits and `.` removed (0 when
that fails), not to the last numeric token. -/
theorem C6_totals :
    (∀ ls l v, (ls ++ [l]).length ≤ 20 → subtotalPatDyn l = true →
      (dynNums l).getLast? = some v →
      (extractTotalsDyn (ls ++ [l])).subtotal = v) ∧
    (∀ ls l v, (ls ++ [l]).length ≤ 20 → taxPatDyn l = true →
      (dynNums l).getLast? = some v →
      (extractTotalsDyn (ls ++ [l])).tax = v) ∧
    (∀ ls l v, (ls ++ [l]).length ≤ 20 → grandPatDyn l = true →
      (dynNums l).getLast? = some v →
      (extractTotalsDyn (ls ++ [l])).grandTotal = v) ∧
    (∀ ls l, (ls ++ [l]).length ≤ 20 →
      (subtotalPatDyn l = false ∨ dynNums l = []) →
      (extractTotalsDyn (ls ++ [l])).subtotal = (extractTotalsDyn ls).subtotal) ∧
    extractTotalsDyn [] =
      ⟨some (JSNumber.finite 0), some (JSNumber.finite 0), some (JSNumber.finite 0)⟩ ∧
    (∀ ls l, (ls ++ [l]).length ≤ 20 → subtotalPatInv l = true →
      (extractTotalsInv (ls ++ [l])).subtotal = squashValue l) := by
  refine ⟨?_, ?_, ?_, ?_, by decide, ?_⟩
  · intro ls l v h hs hv
    rw [extractTotalsDyn_append _ _ h]
    exact totalsStepDyn_subtotal _ _ _ hs hv
  · intro ls l v h hs hv
    rw [extractTotalsDyn_append _ _ h]
    exact totalsStepDyn_tax _ _ _ hs hv
  · intro ls l v h hs hv
    rw [extractTotalsDyn_append _ _ h]
    exact totalsStepDyn_grand _ _ _ hs hv
  · intro ls l h hs
    rw [extractTotalsDyn_append _ _ h]
    exact totalsStepDyn_subtotal_skip _ _ hs
  · intro ls l h hs
    rw [extractTotalsInv_append _ _ h]
    exact totalsStepInv_subtotal _ _ hs

/-- Claim C6, witness: the subtotal component applied at a concrete line. -/
theorem C6_witness :
    (extractTotalsDyn ["Subtotal: 100.00"]).subtotal = some (JSNumber.finite 100) :=
  C6_totals.1 [] "Subtotal: 100.00" (some (JSNumber.finite 100))
    (by decide) (by decide) (by decide)

/-- Claim C10, counterexample.  The claim asserts that a subtotal line sets
`grandTotal` and `subtotal` to the line's last numeric token.  In the
`InvoiceOCRParser` variant both are set to the digit-squash value 3.007,
not to the last numeric token 7.00 (the aliasing itself — grandTotal =
subtotal — does hold). -/
theorem C10_counterexample :
    (extractTotalsInv ["Subtotal 3.00 7.00"]).grandTotal =
      JSNumber.finite (mkRat 3007 1000) ∧
    (extractTotalsInv ["Subtotal 3.00 7.00"]).subtotal =
      JSNumber.finite (mkRat 3007 1000) ∧
    (dynNums "Subtotal 3.00 7.00").getLast? = some (some (JSNumber.finite 7)) ∧
    ¬ (extractTotalsInv ["Subtotal 3.00 7.00"]).grandTotal = JSNumber.finite 7 := by
  decide

/-- Claim C10, amended.  Because the grand-total pattern matches the
substring `total` inside `subtotal`, every line in the scanned window that
matches the subtotal pattern and has at least one numeric token sets
`grandTotal` as well as `subtotal` to the same value — the line's last
numeric token in the `DynamicPatternParser` variant, the digit-squash
parse in the `InvoiceOCRParser` variant.  Hence a document whose last
totals-keyword line is a subtotal line reports `grandTotal` equal to
`subtotal` even when no grand-total line exists. -/
theorem C10_grand_aliases_subtotal :
    (∀ ls l v, (ls ++ [l]).length ≤ 20 → subtotalPatDyn l = true →
      (dynNums l).getLast? = some v →
      (extractTotalsDyn (ls ++ [l])).grandTotal = v ∧
      (extractTotalsDyn (ls ++ [l])).subtotal = v) ∧
    (∀ ls l, (ls ++ [l]).length ≤ 20 → subtotalPatInv l = true →
      (extractTotalsInv (ls ++ [l])).grandTotal =
        (extractTotalsInv (ls ++ [l])).subtotal) ∧
    extractTotalsDyn ["Widget 2 15.00 30.00", "Subtotal: 30.00"] =
      ⟨some (JSNumber.finite 30), some (JSNumber.finite 0),
        some (JSNumber.finite 30)⟩ := by
  refine ⟨?_, ?_, by decide⟩
  · intro ls l v h hs hv
    rw [extractTotalsDyn_append _ _ h]
    exact ⟨totalsStepDyn_grand _ _ _ (grandPatDyn_of_subtotalPatDyn _ hs) hv,
      totalsStepDyn_subtotal _ _ _ hs hv⟩
  · intro ls l h hs
    rw [extractTotalsInv_append _ _ h]
    rw [totalsStepInv_sub_grand _ _ hs, totalsStepInv_subtotal _ _ hs]

/-- Claim C10, witness: the aliasing component applied at a concrete line. -/
theorem C10_witness :
    (extractTotalsDyn ["Subtotal: 42.00"]).grandTotal = some (JSNumber.finite 42) ∧
    (extractTotalsDyn ["Subtotal: 42.00"]).subtotal = some (JSNumber.finite 42) :=
  C10_grand_aliases_subtotal.1 [] "Subtotal: 42.00" (some (JSNumber.finite 42))
    (by decide) (by decide) (by decide)

/-! ## Hardened `InvoiceOCRParser.extractItems` (part_000 lines 408-521) -/

/-- Greedy thousands-group loop for `(?:,\\d{3})*`. -/
def hardNumGroups : Nat → List Char → (List Char × List Char)
  | 0, cs => ([], cs)
  | fuel + 1, cs =>
    match cs with
    | ',' :: d1 :: d2 :: d3 :: rest =>
      if isAsciiDigit d1 && isAsciiDigit d2 && isAsciiDigit d3 then
        let gr := hardNumGroups fuel rest
        (',' :: d1 :: d2 :: d3 :: gr.1, gr.2)
      else ([], cs)
    | _ => ([], cs)

/-- Anchored match of the hardened parser's number regex
`[₹$€£]?\\s*\\d+(?:,\\d{3})*(?:\\.\\d{1,2})?` at the start of `cs`. -/
def matchHardNumAt (cs : List Char) : Option (List Char × List Char) :=
  let cr : List Char × List Char :=
    match cs with
    | c :: rest =>
      if c = '₹' || c = '$' || c = '€' || c = '£' then ([c], rest) else ([], cs)
    | [] => ([], cs)
  let ws := cr.2.takeWhile isWsChar
  let r1 := cr.2.dropWhile isWsChar
  let ds := r1.takeWhile isAsciiDigit
  if ds.isEmpty then none
  else
    let r2 := r1.dropWhile isAsciiDigit
    let gr := hardNumGroups r2.length r2
    match gr.2 with
    | '.' :: d1 :: rest =>
      if isAsciiDigit d1 then
        match rest with
        | d2 :: rest2 =>
          if isAsciiDigit d2 then
            some (cr.1 ++ ws ++ ds ++ gr.1 ++ ['.', d1, d2], rest2)
          else some (cr.1 ++ ws ++ ds ++ gr.1 ++ ['.', d1], rest)
        | [] => some (cr.1 ++ ws ++ ds ++ gr.1 ++ ['.', d1], rest)
      else some (cr.1 ++ ws ++ ds ++ gr.1, gr.2)
    | _ => some (cr.1 ++ ws ++ ds ++ gr.1, gr.2)

/-- `parseFloat(m[1].replace(/[,₹$€£\\s]/g, ''))` — the matched token is a
digit string with optional fraction after stripping, so `parseFloat` always
yields a finite value; the catch-all arm is unreachable. -/
def hardNumValue (tok : List Char) : ℚ :=
  match parseFloat (String.mk (tok.filter
      (fun c => !(c = ',' || c = '₹' || c = '$' || c = '€' || c = '£' || isWsChar c)))) with
  | JSNumber.finite q => q
  | _ => 0

/-- The `matchAll` scan of `extractNumbers`, keeping only the values. -/
def scanHardNums : Nat → List Char → List ℚ
  | 0, _ => []
  | _, [] => []
  | fuel + 1, c :: cs =>
    match matchHardNumAt (c :: cs) with
    | some tr => hardNumValue tr.1 :: scanHardNums fuel tr.2
    | none => scanHardNums fuel cs

/-- Embedding of the hardened `extractNumbers` (values only). -/
def extractNumbersH (line : String) : List ℚ :=
  scanHardNums line.toList.length line.toList

/-- Deletion of every number-regex match, as in
`line.replace(numberPattern, '')`. -/
def removeHardNums : Nat → List Char → List Char
  | 0, cs => cs
  | _, [] => []
  | fuel + 1, c :: cs =>
    match matchHardNumAt (c :: cs) with
    | some tr => removeHardNums fuel tr.2
    | none => c :: removeHardNums fuel cs

/-- `replace(/\\s{2,}/g, ' ')`: collapse runs of two or more whitespace
characters into a single space (a single whitespace character stays). -/
def collapseWs : Nat → List Char → List Char
  | 0, cs => cs
  | _, [] => []
  | fuel + 1, c :: cs =>
    if isWsChar c then
      match cs with
      | d :: rest =>
        if isWsChar d then ' ' :: collapseWs fuel ((d :: rest).dropWhile isWsChar)
        else c :: collapseWs fuel cs
      | [] => [c]
    else c :: collapseWs fuel cs

/-- `replace(/^0?\\d+[\\s.]/, '')`: with backtracking the optional `0?` is
subsumed by `\\d+`, so this strips one leading digit run followed by one
whitespace or dot character. -/
def stripLeadIdx (cs : List Char) : List Char :=
  let ds := cs.takeWhile isAsciiDigit
  if ds.isEmpty then cs
  else
    match cs.dropWhile isAsciiDigit with
    | c :: rest2 => if isWsChar c || c = '.' then rest2 else cs
    | [] => cs

/-- Embedding of the hardened `extractDescription`. -/
def extractDescriptionH (line : String) : String :=
  let d1 := removeHardNums line.toList.length line.toList
  let d2 := trimL (collapseWs d1.length d1)
  String.mk (trimL (stripLeadIdx d2))

/-- Embedding of `isHeaderLike`: all-uppercase, short, digit-free. -/
def isHeaderLike (line : String) : Bool :=
  decide (line.toList = toUpperL line.toList) && line.length < 30 &&
    !(line.toList.any isAsciiDigit)

/-- The totals-stop test of the hardened `extractItems`:
`/(subtotal|grand\\s*total|amount\\s*due|tax|vat)/i`. -/
def stopItemsLine (line : String) : Bool :=
  let lower := toLowerL line.toList
  containsL "subtotal".toList lower || containsWsGap lower "grand" "total" ||
    containsWsGap lower "amount" "due" || containsL "tax".toList lower ||
    containsL "vat".toList lower

def isYearLike (n : ℚ) : Bool := decide (1900 ≤ n) && decide (n ≤ 2100)

/-- `v > 0 && v <= 100 && !isYearLike(v)`. -/
def plausibleQty (v : ℚ) : Bool :=
  decide (0 < v) && decide (v ≤ 100) && !isYearLike v

def insertAsc (x : ℚ) : List ℚ → List ℚ
  | [] => [x]
  | y :: ys => if x ≤ y then x :: y :: ys else y :: insertAsc x ys

/-- `values.sort((a, b) => a - b)`. -/
def sortAsc (l : List ℚ) : List ℚ := l.foldr insertAsc []

def isWordChar (c : Char) : Bool :=
  ('a' ≤ c && c ≤ 'z') || ('A' ≤ c && c ≤ 'Z') || isAsciiDigit c || c = '_'

/-- `split(/\\s+/)` (leading/trailing whitespace produces empty parts,
matching the JS behavior). -/
def splitWsRuns : Nat → List Char → List (List Char)
  | 0, cs => [cs]
  | _, [] => [[]]
  | fuel + 1, cs =>
    let w := cs.takeWhile (fun c => !isWsChar c)
    match cs.dropWhile (fun c => !isWsChar c) with
    | [] => [w]
    | _ :: rest => w :: splitWsRuns fuel (rest.dropWhile isWsChar)

/-- Embedding of `generateItemCode`: strip non-word non-space characters,
take the first three words, uppercase each word's first three characters,
join; `"ITEM"` when empty. -/
def generateItemCode (name : String) : String :=
  let cleaned := name.toList.filter (fun c => isWordChar c || isWsChar c)
  let words := splitWsRuns cleaned.length cleaned
  let code := ((words.take 3).map (fun w => toUpperL (w.take 3))).flatten
  if code.isEmpty then "ITEM" else String.mk code

structure ItemR where
  itemName : String
  itemCode : String
  qty : ℚ
  rate : ℚ
  amount : ℚ
deriving DecidableEq, Repr

structure ExtractState where
  items : List ItemR
  currentDesc : String
  tableStarted : Bool
deriving DecidableEq, Repr

/-- The quantity/rate inference of the hardened `extractItems` on the
sorted values: with exactly two tokens, a plausible quantity (the smallest,
since `find` scans the ascending sort) gives `rate = total / qty`, otherwise
quantity is 1 and the rate is the smaller token; with three or more tokens
the quantity is the plausible-quantity token and the rate is the
second-largest token, and the line yields nothing when no plausible
quantity exists (`qty` stays `undefined` and `!qty` skips the line). -/
def inferQtyRate (values : List ℚ) : Option (ℚ × ℚ) :=
  match values.getLast? with
  | none => none
  | some total =>
    let possibleQty := values.find? plausibleQty
    if values.length = 2 then
      match possibleQty with
      | some pq => some (pq, qDiv total pq)
      | none => some (1, values.headD 0)
    else
      match possibleQty with
      | some pq => some (pq, values.getD (values.length - 2) 0)
      | none => none

/-- The per-line numeric pipeline of the hardened `extractItems`: at least
two tokens, not all year-like, total at least 20, quantity and rate found
and truthy.  Yields `(qty, rate, total)`. -/
def lineCandidate (line : String) : Option (ℚ × ℚ × ℚ) :=
  let numbers := extractNumbersH line
  if numbers.length < 2 then none
  else
    let values := sortAsc numbers
    match values.getLast? with
    | none => none
    | some total =>
      if values.all isYearLike = true then none
      else if total < 20 then none
      else
        match inferQtyRate values with
        | none => none
        | some qr =>
          if qr.1 = 0 ∨ qr.2 = 0 then none
          else some (qr.1, qr.2, total)

/-- `Math.abs(qty * rate - total) / total`. -/
def candTol (c : ℚ × ℚ × ℚ) : ℚ :=
  qDiv (qAbs (qSub (qMul c.1 c.2.1) c.2.2)) c.2.2

/-- The tolerance of a line's candidate, when the line yields one. -/
def lineTol (line : String) : Option ℚ := (lineCandidate line).map candTol

/-- The acceptance tail of the loop body: resolve the final description
(the line's own, else the accumulated one), require length at least 2,
append the item and clear the accumulated description. -/
def acceptLine (st : ExtractState) (description : String) (c : ℚ × ℚ × ℚ) :
    ExtractState :=
  let finalDesc := if description ≠ "" then description else st.currentDesc
  if finalDesc.length < 2 then st
  else
    { st with
      items := st.items ++
        [⟨finalDesc, generateItemCode finalDesc, c.1, c.2.1, c.2.2⟩],
      currentDesc := "" }

/-- The candidate-dependent tail of the loop body: lines with no candidate
are skipped; before the table is open the 🚨 table-lock gate requires the
tolerance below 0.25 and a truthy description, and a line passing it opens
the table; with the table open the line goes straight to acceptance. -/
def candidateStep (st1 : ExtractState) (description : String) :
    Option (ℚ × ℚ × ℚ) → ExtractState
  | none => st1
  | some c =>
    if st1.tableStarted = false then
      if candTol c < mkRat 25 100 ∧ (description ≠ "" ∨ st1.currentDesc ≠ "") then
        acceptLine { st1 with tableStarted := true } description c
      else st1
    else acceptLine st1 description c

/-- One iteration of the hardened `extractItems` loop (without the
totals-stop test, which `runItems` applies). -/
def processLine (st : ExtractState) (line : String) : ExtractState :=
  if isHeaderLike line = true then st
  else
    let numbers := extractNumbersH line
    let description := extractDescriptionH line
    let st1 :=
      if st.tableStarted = false ∧ numbers = [] ∧ 2 < description.length then
        { st with currentDesc := description }
      else st
    candidateStep st1 description (lineCandidate line)

/-- The hardened `extractItems` loop: stop at the first totals line,
otherwise process every line in order. -/
def runItems : ExtractState → List String → ExtractState
  | st, [] => st
  | st, l :: ls => if stopItemsLine l = true then st else runItems (processLine st l) ls

/-- Embedding of the hardened `InvoiceOCRParser.extractItems`. -/
def extractItems (lines : List String) : List ItemR :=
  (runItems ⟨[], "", false⟩ lines).items

/-! ## Supporting lemmas for the item-extraction claims -/

theorem getLast?_none {α : Type} (l : List α) (h : l.getLast? = none) : l = [] := by
  cases l with
  | nil => rfl
  | cons a as => simp [List.getLast?] at h

theorem lineCandidate_numbers (l : String) (c : ℚ × ℚ × ℚ)
    (h : lineCandidate l = some c) : extractNumbersH l ≠ [] := by
  intro hnil
  simp [lineCandidate, hnil] at h

theorem acceptLine_tableStarted (st : ExtractState) (d : String) (c : ℚ × ℚ × ℚ) :
    (acceptLine st d c).tableStarted = st.tableStarted := by
  simp only [acceptLine]
  by_cases hf : (if d ≠ "" then d else st.currentDesc).length < 2
  · rw [if_pos hf]
  · rw [if_neg hf]

/-- Before the table is open, a processed line either leaves the state
closed with no new item, or opens the table, in which case its candidate
passed the 25% tolerance gate with a nonempty description. -/
theorem processLine_not_started (st : ExtractState) (l : String)
    (h : st.tableStarted = false) :
    ((processLine st l).tableStarted = false ∧ (processLine st l).items = st.items) ∨
    ((processLine st l).tableStarted = true ∧
      ∃ c, lineCandidate l = some c ∧ candTol c < mkRat 25 100 ∧
        (extractDescriptionH l ≠ "" ∨ st.currentDesc ≠ "")) := by
  simp only [processLine]
  by_cases hh : isHeaderLike l = true
  · rw [if_pos hh]
    exact Or.inl ⟨h, rfl⟩
  · rw [if_neg hh]
    rcases hc : lineCandidate l with _ | c
    · left
      simp only [candidateStep]
      by_cases hacc : st.tableStarted = false ∧ extractNumbersH l = [] ∧
          2 < (extractDescriptionH l).length
      · rw [if_pos hacc]
        exact ⟨h, rfl⟩
      · rw [if_neg hacc]
        exact ⟨h, rfl⟩
    · have hne := lineCandidate_numbers l c hc
      have hst1 : (if st.tableStarted = false ∧ extractNumbersH l = [] ∧
          2 < (extractDescriptionH l).length then
            { st with currentDesc := extractDescriptionH l } else st) = st := by
        rw [if_neg]
        rintro ⟨-, hnil, -⟩
        exact hne hnil
      rw [hst1]
      simp only [candidateStep]
      rw [if_pos h]
      by_cases hg : candTol c < mkRat 25 100 ∧
          (extractDescriptionH l ≠ "" ∨ st.currentDesc ≠ "")
      · rw [if_pos hg]
        right
        refine ⟨?_, c, rfl, hg.1, hg.2⟩
        rw [acceptLine_tableStarted]
      · rw [if_neg hg]
        exact Or.inl ⟨h, rfl⟩

/-- If the loop produced an item starting from a closed-table state, some
line opened the table, and that line's candidate passed the 25% tolerance
gate with a nonempty description at that moment. -/
theorem runItems_gate :
    ∀ (ls : List String) (st : ExtractState), st.tableStarted = false →
      (runItems st ls).items ≠ st.items →
      ∃ as l bs, ls = as ++ l :: bs ∧ (∀ a ∈ as, stopItemsLine a = false) ∧
        stopItemsLine l = false ∧ (runItems st as).tableStarted = false ∧
        ∃ c, lineCandidate l = some c ∧ candTol c < mkRat 25 100 ∧
          (extractDescriptionH l ≠ "" ∨ (runItems st as).currentDesc ≠ "") := by
  intro ls
  induction ls with
  | nil =>
    intro st h hne
    exact absurd rfl hne
  | cons l ls ih =>
    intro st h hne
    rw [runItems] at hne
    by_cases hstop : stopItemsLine l = true
    · rw [if_pos hstop] at hne
      exact absurd rfl hne
    · rw [if_neg hstop] at hne
      have hstop2 : stopItemsLine l = false := by
        cases hsl : stopItemsLine l
        · rfl
        · exact absurd hsl hstop
      have hrw : ∀ ms : List String, runItems st (l :: ms) = runItems (processLine st l) ms := by
        intro ms
        rw [runItems, if_neg hstop]
      rcases processLine_not_started st l h with ⟨hts, hit⟩ | ⟨hts, c, hc, htol, hdesc⟩
      · have hne2 : (runItems (processLine st l) ls).items ≠ (processLine st l).items := by
          rw [hit]
          exact hne
        rcases ih (processLine st l) hts hne2 with
          ⟨as, l2, bs, heq, hnostop, hl2, hts2, c, hc, htol, hdesc⟩
        refine ⟨l :: as, l2, bs, by rw [heq, List.cons_append], ?_, hl2, ?_, c, hc, htol, ?_⟩
        · intro a ha
          rcases List.mem_cons.mp ha with rfl | ha
          · exact hstop2
          · exact hnostop a ha
        · rw [hrw as]
          exact hts2
        · rw [hrw as]
          exact hdesc
      · exact ⟨[], l, ls, rfl, by simp, hstop2, h, c, hc, htol, hdesc⟩

/-! ## Claims C3 and C4 -/

/-- Claim C3, counterexample.  The claim asserts the line
`"HP Computer 5,00 each 37,75 188,75"` yields quantity=5, rate=37.75,
amount=188.75.  Under the cited extractor's number pattern (comma only as a
three-digit group separator, dot only as decimal), the line tokenizes to
[5, 0, 37, 75, 188, 75], and with the table already open it yields
quantity=5, rate=75 (the second-largest value), amount=188 — no item with
the claimed rate/amount exists.  The claim also asserts that with three or
more tokens and no plausible quantity, quantity falls back to the
second-largest token; on `"Gadget 150 200 1000"` (all tokens above 100)
the code instead skips the line (`!qty` with `qty` undefined). -/
theorem C3_counterexample :
    extractItems ["Widget 2 50 100", "HP Computer 5,00 each 37,75 188,75"] =
      [⟨"Widget", "WID", 2, 50, 100⟩,
       ⟨"HP Computer, each,,", "HPCOMEAC", 5, 75, 188⟩] ∧
    (¬ ∃ it ∈ extractItems ["Widget 2 50 100", "HP Computer 5,00 each 37,75 188,75"],
        it.rate = mkRat 3775 100 ∧ it.amount = mkRat 18875 100) ∧
    extractItems ["Widget 2 50 100", "Gadget 150 200 1000"] =
      [⟨"Widget", "WID", 2, 50, 100⟩] := by
  decide

/-- Claim C3, amended.  Quantity inference in the hardened extractor: a
plausible quantity is a token in (0, 100] that is not year-like (the
smallest such token, as `find` scans the ascending sort); with exactly two
tokens, if a plausible quantity exists then rate = amount / quantity,
otherwise quantity = 1 and rate = the smaller token; with three or more
tokens, quantity = the plausible-quantity token if found — otherwise the
line is skipped, with no second-largest fallback — and rate = the
second-largest token.  The HP Computer line tokenizes to
[5, 0, 37, 75, 188, 75] under this extractor and, once the table is open,
yields quantity=5, rate=75, amount=188 rather than the claimed
5 / 37.75 / 188.75. -/
theorem C3_quantity_inference :
    extractItems ["Widget 2 50 100", "HP Computer 5,00 each 37,75 188,75"] =
      [⟨"Widget", "WID", 2, 50, 100⟩,
       ⟨"HP Computer, each,,", "HPCOMEAC", 5, 75, 188⟩] ∧
    (∀ values total pq, values.getLast? = some total → values.length = 2 →
      values.find? plausibleQty = some pq →
      inferQtyRate values = some (pq, qDiv total pq)) ∧
    (∀ values total, values.getLast? = some total → values.length = 2 →
      values.find? plausibleQty = none →
      inferQtyRate values = some (1, values.headD 0)) ∧
    (∀ values, 3 ≤ values.length → values.find? plausibleQty = none →
      inferQtyRate values = none) ∧
    (∀ values total pq, values.getLast? = some total → 3 ≤ values.length →
      values.find? plausibleQty = some pq →
      inferQtyRate values = some (pq, values.getD (values.length - 2) 0)) := by
  refine ⟨by decide, ?_, ?_, ?_, ?_⟩
  · intro values total pq hl h2 hf
    simp only [inferQtyRate, hl, hf, h2, if_true]
  · intro values total hl h2 hf
    simp only [inferQtyRate, hl, hf, h2, if_true]
  · intro values h3 hf
    rcases hl : values.getLast? with _ | total
    · rw [getLast?_none values hl] at h3
      simp at h3
    · simp only [inferQtyRate, hl, hf]
      rw [if_neg (by omega : ¬ values.length = 2)]
  · intro values total pq hl h3 hf
    simp only [inferQtyRate, hl, hf]
    rw [if_neg (by omega : ¬ values.length = 2)]

/-- Claim C3, witness: the two-token rule applied at concrete values. -/
theorem C3_witness : inferQtyRate [5, 20] = some (5, qDiv 20 5) :=
  C3_quantity_inference.2.1 [5, 20] 20 5 (by decide) (by decide) (by decide)

/-- Claim C4, counterexample.  The claim asserts that whenever extraction
returns a non-empty list, the first accepted item passed the ≈25%
arithmetic gate at the moment it was accepted.  On
`["x 5 100", "Widget 3 10 50"]` the first line opens the table (tolerance
0 and truthy description `"x"`) but yields no item because its description
is shorter than 2 characters; the Widget line is then the first accepted
item although its tolerance |3*10 - 50|/50 = 0.4 exceeds 0.25 — the gate is
no longer applied once the table is open. -/
theorem C4_counterexample :
    extractItems ["x 5 100", "Widget 3 10 50"] = [⟨"Widget", "WID", 3, 10, 50⟩] ∧
    lineTol "Widget 3 10 50" = some (mkRat 2 5) ∧
    ¬ (mkRat 2 5 < mkRat 25 100) ∧
    lineTol "x 5 100" = some 0 ∧ extractDescriptionH "x 5 100" = "x" := by
  decide

/-- Claim C4, amended.  For every line sequence, if item extraction returns
a non-empty list then some line opened the table by passing the arithmetic
check within the loose 25% relative tolerance together with a nonempty
description at that moment; the first accepted item is that line's item
unless the opening line's final description was shorter than 2 characters,
in which case a later line — to which the gate is no longer applied — can
be the first accepted item.  Once the table is open, a line's acceptance
does not consult the tolerance at all. -/
theorem C4_table_lock :
    (∀ lines, extractItems lines ≠ [] →
      ∃ as l bs, lines = as ++ l :: bs ∧ (∀ a ∈ as, stopItemsLine a = false) ∧
        stopItemsLine l = false ∧
        (runItems ⟨[], "", false⟩ as).tableStarted = false ∧
        ∃ c, lineCandidate l = some c ∧ candTol c < mkRat 25 100 ∧
          (extractDescriptionH l ≠ "" ∨ (runItems ⟨[], "", false⟩ as).currentDesc ≠ "")) ∧
    (∀ st l c, isHeaderLike l = false → st.tableStarted = true →
      lineCandidate l = some c →
      processLine st l = acceptLine st (extractDescriptionH l) c) ∧
    extractItems ["x 5 100", "Widget 3 10 50"] = [⟨"Widget", "WID", 3, 10, 50⟩] := by
  refine ⟨?_, ?_, by decide⟩
  · intro lines hne
    exact runItems_gate lines ⟨[], "", false⟩ rfl hne
  · intro st l c hh ht hc
    simp only [processLine, hh, hc, ht, candidateStep, Bool.false_eq_true,
      Bool.true_eq_false, false_and, if_false]

/-- Claim C4, witness: once the table is open, a line failing the 25%
tolerance is still accepted (the gate is not re-applied). -/
theorem C4_witness :
    processLine ⟨[], "", true⟩ "Widget 3 10 50" =
      acceptLine ⟨[], "", true⟩ (extractDescriptionH "Widget 3 10 50") (3, 10, 50) :=
  C4_table_lock.2.1 ⟨[], "", true⟩ "Widget 3 10 50" (3, 10, 50) (by decide) rfl (by decide)

/-! ## Invoice assembly
(`DynamicPatternParser.processInvoice`, OCRParser.js lines 523-571, and
`InvoiceOCRParser.normalizeToFrappe`, lines 950-973) -/

/-- JS addition on numbers. -/
def jsAdd : JSNumber → JSNumber → JSNumber
  | JSNumber.nan, _ => JSNumber.nan
  | _, JSNumber.nan => JSNumber.nan
  | JSNumber.inf, JSNumber.ninf => JSNumber.nan
  | JSNumber.ninf, JSNumber.inf => JSNumber.nan
  | JSNumber.inf, _ => JSNumber.inf
  | _, JSNumber.inf => JSNumber.inf
  | JSNumber.ninf, _ => JSNumber.ninf
  | _, JSNumber.ninf => JSNumber.ninf
  | JSNumber.finite a, JSNumber.finite b => JSNumber.finite (qAdd a b)

/-- JS `sum + item.amount` where the amount may be `null` (coerced to 0). -/
def jsAddOpt (s : JSNumber) (a : Option JSNumber) : JSNumber :=
  jsAdd s (a.getD (JSNumber.finite 0))

/-- JS truthiness of a number: `0` and `NaN` are falsy. -/
def jsTruthyNum (n : JSNumber) : Bool :=
  !(n = JSNumber.nan || n = JSNumber.finite 0)

/-- `a || b` where `a` may be `null`. -/
def jsOrNum (a : Option JSNumber) (b : JSNumber) : JSNumber :=
  if jsTruthy a then a.getD (JSNumber.finite 0) else b

/-- An item as pushed by `DynamicPatternParser.extractItems` (fields come
from `parseNumber` and may be `null`). -/
structure ItemD where
  itemName : String
  itemCode : String
  qty : Option JSNumber
  rate : Option JSNumber
  amount : Option JSNumber
deriving DecidableEq, Repr

/-- `items.reduce((sum, item) => sum + item.amount, 0)`. -/
def itemsTotalDyn (items : List ItemD) : JSNumber :=
  items.foldl (fun s i => jsAddOpt s i.amount) (JSNumber.finite 0)

structure FrappeItemD where
  item_code : String
  item_name : String
  qty : Option JSNumber
  rate : Option JSNumber
  amount : Option JSNumber
  uom : String
deriving DecidableEq, Repr

structure FrappeInvoiceD where
  doctype : String
  party : String
  party_name : String
  posting_date : String
  due_date : String
  invoice_number : String
  items : List FrappeItemD
  total : JSNumber
  grand_total : JSNumber
deriving DecidableEq, Repr

/-- The assembly tail of `DynamicPatternParser.processInvoice` (everything
after the extractors have run); `now` models `Date.now()`. -/
def assembleDyn (party invoiceNumber date : String) (items : List ItemD)
    (totals : TotalsRec) (now : Nat) : FrappeInvoiceD :=
  let itemsTotal := itemsTotalDyn items
  let total := jsOrNum totals.subtotal itemsTotal
  let grandTotal := jsOrNum totals.grandTotal total
  { doctype := "Sales Invoice"
    party := if party = "" then "Unknown Customer" else party
    party_name := if party = "" then "Unknown Customer" else party
    posting_date := date
    due_date := date
    invoice_number :=
      if invoiceNumber = "" then "INV-" ++ toString now else invoiceNumber
    items := items.map (fun i => ⟨i.itemCode, i.itemName, i.qty, i.rate, i.amount, "Nos"⟩)
    total := total
    grand_total := grandTotal }

/-- The parsed record handed to `InvoiceOCRParser.normalizeToFrappe`. -/
structure ParsedInvoice where
  party : String
  invoiceNumber : String
  date : String
  items : List ItemR
  totals : TotalsRecInv
deriving DecidableEq, Repr

structure FrappeItemR where
  item_code : String
  item_name : String
  qty : ℚ
  rate : ℚ
  amount : ℚ
  uom : String
deriving DecidableEq, Repr

structure FrappeInvoiceR where
  doctype : String
  party : String
  party_name : String
  posting_date : String
  due_date : String
  invoice_number : String
  items : List FrappeItemR
  total : JSNumber
  grand_total : JSNumber
deriving DecidableEq, Repr

/-- Embedding of `InvoiceOCRParser.normalizeToFrappe`.  For the plain-number
item amounts, `(i.amount || 0)` is the amount itself (0 stays 0), so the
reduce is a plain sum.  No placeholder is applied to `party` or
`invoiceNumber`. -/
def normalizeToFrappe (data : ParsedInvoice) : FrappeInvoiceR :=
  let itemsSum : ℚ := data.items.foldl (fun s i => qAdd s i.amount) 0
  let total : JSNumber :=
    if jsTruthyNum data.totals.subtotal = true then data.totals.subtotal
    else JSNumber.finite itemsSum
  { doctype := "Sales Invoice"
    party := data.party
    party_name := data.party
    posting_date := data.date
    due_date := data.date
    invoice_number := data.invoiceNumber
    items := data.items.map (fun i => ⟨i.itemCode, i.itemName, i.qty, i.rate, i.amount, "Nos"⟩)
    total := total
    grand_total :=
      if jsTruthyNum data.totals.grandTotal = true then data.totals.grandTotal
      else total }

/-! ### `DynamicPatternParser.extractParty` / `extractInvoiceNumber`
(OCRParser.js lines 455-486) -/

/-- Case-insensitive literal prefix match (the keyword is lowercase);
returns the remaining original characters. -/
def ciPrefixMatch : List Char → List Char → Option (List Char)
  | [], rest => some rest
  | _ :: _, [] => none
  | a :: ks, c :: rest => if c.toLower = a then ciPrefixMatch ks rest else none

/-- `k1\\s*k2` at the start of `cs`. -/
def ciPrefixWsMatch (k1 k2 : List Char) (cs : List Char) : Option (List Char) :=
  match ciPrefixMatch k1 cs with
  | none => none
  | some r1 => ciPrefixMatch k2 (r1.dropWhile isWsChar)

/-- `[:\\s]+(.+)` after a matched keyword: one or more separators, then a
greedy nonempty capture; when only separators remain, backtracking leaves
the last separator as the capture. -/
def capAfterSeps (r0 : List Char) : Option (List Char) :=
  let seps := r0.takeWhile (fun c => c = ':' || isWsChar c)
  let rest := r0.dropWhile (fun c => c = ':' || isWsChar c)
  if seps.isEmpty then none
  else if rest.isEmpty then
    if 2 ≤ seps.length then some [seps.getLastD ' '] else none
  else some rest

/-- The party pattern `(?:bill\\s*to|customer|client|sold\\s*to)[:\\s]+(.+)`
anchored at a position: alternatives in order, each followed by the
separator-and-capture tail. -/
def partyAt1 (cs : List Char) : Option (List Char) :=
  match ciPrefixWsMatch "bill".toList "to".toList cs with
  | some r => (match capAfterSeps r with
    | some cap => some cap
    | none => partyAt1Rest cs)
  | none => partyAt1Rest cs
where
  partyAt1Rest (cs : List Char) : Option (List Char) :=
    match ciPrefixMatch "customer".toList cs with
    | some r => (match capAfterSeps r with
      | some cap => some cap
      | none => partyAt1Rest2 cs)
    | none => partyAt1Rest2 cs
  partyAt1Rest2 (cs : List Char) : Option (List Char) :=
    match ciPrefixMatch "client".toList cs with
    | some r => (match capAfterSeps r with
      | some cap => some cap
      | none => partyAt1Rest3 cs)
    | none => partyAt1Rest3 cs
  partyAt1Rest3 (cs : List Char) : Option (List Char) :=
    match ciPrefixWsMatch "sold".toList "to".toList cs with
    | some r => capAfterSeps r
    | none => none

/-- The party pattern `(?:company|name)[:\\s]+(.+)` anchored at a
position. -/
def partyAt2 (cs : List Char) : Option (List Char) :=
  match ciPrefixMatch "company".toList cs with
  | some r => (match capAfterSeps r with
    | some cap => some cap
    | none => partyAt2Rest cs)
  | none => partyAt2Rest cs
where
  partyAt2Rest (cs : List Char) : Option (List Char) :=
    match ciPrefixMatch "name".toList cs with
    | some r => capAfterSeps r
    | none => none

/-- Leftmost-position scan of an anchored capture pattern. -/
def scanCapFrom (pat : List Char → Option (List Char)) : Nat → List Char → Option (List Char)
  | 0, cs => pat cs
  | fuel + 1, cs =>
    match pat cs with
    | some cap => some cap
    | none =>
      match cs with
      | [] => none
      | _ :: rest => scanCapFrom pat fuel rest

/-- `m[1].replace(/[^\\w\\s&.-]/g, '').trim()`. -/
def cleanPartyCap (cap : List Char) : String :=
  String.mk (trimL (cap.filter
    (fun c => isWordChar c || isWsChar c || c = '&' || c = '.' || c = '-')))

/-- One line of `extractParty`: try both patterns in order; a capture of
more than 3 characters is cleaned and returned. -/
def extractPartyLine (line : String) : Option String :=
  let try1 :=
    match scanCapFrom partyAt1 line.toList.length line.toList with
    | some cap => if 3 < cap.length then some (cleanPartyCap cap) else none
    | none => none
  match try1 with
  | some r => some r
  | none =>
    match scanCapFrom partyAt2 line.toList.length line.toList with
    | some cap => if 3 < cap.length then some (cleanPartyCap cap) else none
    | none => none

def firstSomeStr (f : String → Option String) : List String → Option String
  | [] => none
  | l :: ls =>
    match f l with
    | some r => some r
    | none => firstSomeStr f ls

/-- Embedding of `DynamicPatternParser.extractParty`: first match over the
first 20 lines, empty string when nothing matches. -/
def extractPartyDyn (lines : List String) : String :=
  (firstSomeStr extractPartyLine (lines.take 20)).getD ""

def isCapChar (c : Char) : Bool :=
  ('a' ≤ c.toLower && c.toLower ≤ 'z') || isAsciiDigit c || c = '-'

/-- `[:\\s]*([A-Z0-9-]+)` (case-insensitive): optional separators, then a
nonempty capture run. -/
def capAlnum (r2 : List Char) : Option (List Char) :=
  let cap := (r2.dropWhile (fun c => c = ':' || isWsChar c)).takeWhile isCapChar
  if cap.isEmpty then none else some cap

def altCap (k : String) (r1 : List Char) : Option (List Char) :=
  match ciPrefixMatch k.toList r1 with
  | none => none
  | some r2 => capAlnum r2

/-- `invoice\\s*(?:no|number|#)[:\\s]*([A-Z0-9-]+)` anchored at a
position (alternatives tried in order with backtracking). -/
def invNoAt (cs : List Char) : Option (List Char) :=
  match ciPrefixMatch "invoice".toList cs with
  | none => none
  | some r0 =>
    let r1 := r0.dropWhile isWsChar
    match altCap "no" r1 with
    | some cap => some cap
    | none =>
      match altCap "number" r1 with
      | some cap => some cap
      | none => altCap "#" r1

/-- `quote\\s*(?:no|#)[:\\s]*([A-Z0-9-]+)` anchored at a position. -/
def quoteNoAt (cs : List Char) : Option (List Char) :=
  match ciPrefixMatch "quote".toList cs with
  | none => none
  | some r0 =>
    let r1 := r0.dropWhile isWsChar
    match altCap "no" r1 with
    | some cap => some cap
    | none => altCap "#" r1

/-- `order\\s*#?\\s*([A-Z0-9-]+)` anchored at a position. -/
def orderAt (cs : List Char) : Option (List Char) :=
  match ciPrefixMatch "order".toList cs with
  | none => none
  | some r0 =>
    let r1 := r0.dropWhile isWsChar
    let r2 := match r1 with
      | '#' :: rest => rest
      | _ => r1
    let cap := (r2.dropWhile isWsChar).takeWhile isCapChar
    if cap.isEmpty then none else some cap

def invPatCap (pat : List Char → Option (List Char)) (line : String) : Option String :=
  match scanCapFrom pat line.toList.length line.toList with
  | some cap => if 3 ≤ cap.length then some (String.mk (trimL cap)) else none
  | none => none

def extractInvoiceNumberLine (line : String) : Option String :=
  match invPatCap invNoAt line with
  | some r => some r
  | none =>
    match invPatCap quoteNoAt line with
    | some r => some r
    | none => invPatCap orderAt line

/-- Embedding of `DynamicPatternParser.extractInvoiceNumber`: first match
over the first 25 lines, empty string when nothing matches. -/
def extractInvoiceNumberDyn (lines : List String) : String :=
  (firstSomeStr extractInvoiceNumberLine (lines.take 25)).getD ""

/-! ## Claim C7 -/

/-- The concrete parsed record with empty party and invoice number. -/
def c7Data : ParsedInvoice :=
  ⟨"", "", "2025-01-01", [], ⟨JSNumber.finite 0, JSNumber.finite 0, JSNumber.finite 0⟩⟩

/-- Claim C7, counterexample.  The claim asserts that an empty party becomes
`"Unknown Customer"` and an empty invoice number becomes a generated
identifier at the final assembly stage.  `InvoiceOCRParser.normalizeToFrappe`
— one of the two cited assemblers — performs no such replacement: the empty
strings pass through. -/
theorem C7_counterexample :
    (normalizeToFrappe c7Data).party = "" ∧
    ¬ (normalizeToFrappe c7Data).party = "Unknown Customer" ∧
    (normalizeToFrappe c7Data).invoice_number = "" := by
  decide

/-- Claim C7, amended.  In both assemblers, `total` equals `subtotal` when
subtotal > 0 and otherwise the sum of the accepted items' amounts, and
`grandTotal` equals the extracted grand total when > 0 and otherwise
`total`.  The placeholder replacements (`"Unknown Customer"`, a
timestamp-based `INV-` identifier) are applied only by the
`DynamicPatternParser` assembler — whose extractors return empty strings
when nothing is found — while `normalizeToFrappe` passes empty fields
through unchanged. -/
theorem C7_assembler :
    (∀ p n d items totals now s, totals.subtotal = some (JSNumber.finite s) → 0 < s →
      (assembleDyn p n d items totals now).total = JSNumber.finite s) ∧
    (∀ p n d items totals now, totals.subtotal = some (JSNumber.finite 0) →
      (assembleDyn p n d items totals now).total = itemsTotalDyn items) ∧
    (∀ p n d items totals now g, totals.grandTotal = some (JSNumber.finite g) → 0 < g →
      (assembleDyn p n d items totals now).grand_total = JSNumber.finite g) ∧
    (∀ p n d items totals now, totals.grandTotal = some (JSNumber.finite 0) →
      (assembleDyn p n d items totals now).grand_total =
        (assembleDyn p n d items totals now).total) ∧
    (∀ p n d items totals now,
      (assembleDyn p n d items totals now).party =
        (if p = "" then "Unknown Customer" else p) ∧
      (assembleDyn p n d items totals now).invoice_number =
        (if n = "" then "INV-" ++ toString now else n)) ∧
    (∀ data s, data.totals.subtotal = JSNumber.finite s → 0 < s →
      (normalizeToFrappe data).total = JSNumber.finite s) ∧
    (∀ data, data.totals.subtotal = JSNumber.finite 0 →
      (normalizeToFrappe data).total =
        JSNumber.finite (data.items.foldl (fun s i => qAdd s i.amount) 0)) ∧
    (∀ data, data.totals.grandTotal = JSNumber.finite 0 →
      (normalizeToFrappe data).grand_total = (normalizeToFrappe data).total) ∧
    (∀ data, (normalizeToFrappe data).party = data.party ∧
      (normalizeToFrappe data).invoice_number = data.invoiceNumber) ∧
    extractPartyDyn [] = "" ∧ extractInvoiceNumberDyn [] = "" := by
  refine ⟨?_, ?_, ?_, ?_, ?_, ?_, ?_, ?_, ?_, by decide, by decide⟩
  · intro p n d items totals now s hsub hs
    have hne : ¬(s = 0) := by
      intro h
      rw [h] at hs
      exact lt_irrefl 0 hs
    simp [assembleDyn, jsOrNum, hsub, jsTruthy, hne]
  · intro p n d items totals now hsub
    simp [assembleDyn, jsOrNum, hsub, jsTruthy]
  · intro p n d items totals now g hg hgpos
    have hne : ¬(g = 0) := by
      intro h
      rw [h] at hgpos
      exact lt_irrefl 0 hgpos
    simp [assembleDyn, jsOrNum, hg, jsTruthy, hne]
  · intro p n d items totals now hg
    simp [assembleDyn, jsOrNum, hg, jsTruthy]
  · intro p n d items totals now
    exact ⟨rfl, rfl⟩
  · intro data s hsub hs
    have hne : ¬(s = 0) := by
      intro h
      rw [h] at hs
      exact lt_irrefl 0 hs
    simp [normalizeToFrappe, jsTruthyNum, hsub, hne]
  · intro data hsub
    simp [normalizeToFrappe, jsTruthyNum, hsub]
  · intro data hg
    simp [normalizeToFrappe, jsTruthyNum, hg]
  · intro data
    exact ⟨rfl, rfl⟩

/-- Claim C7, witness: the subtotal-wins component applied at concrete
inputs. -/
theorem C7_witness :
    (assembleDyn "Acme" "INV-7" "2025-01-01" []
      ⟨some (JSNumber.finite 5), some (JSNumber.finite 0), some (JSNumber.finite 0)⟩
      0).total = JSNumber.finite 5 :=
  C7_assembler.1 "Acme" "INV-7" "2025-01-01" []
    ⟨some (JSNumber.finite 5), some (JSNumber.finite 0), some (JSNumber.finite 0)⟩
    0 5 rfl (by decide)

/-! ## `DynamicPatternParser.extractDate` (OCRParser.js lines 488-499)

The date regex `(\\d{1,2}[\\/\\-]\\d{1,2}[\\/\\-]\\d{2,4})` is compiled
to an anchored matcher (with the regex's backtracking, a `\\d{1,2}` group
can only match a maximal digit run of length 1 or 2).  `new Date(text)` on
the matched `M/D/Y` shape is modelled on the V8 legacy parser: month 1-12
and day 1-31 are required, two-digit years below 50 are 2000-based and
otherwise 1900-based, and out-of-range days roll over into the next month
(civil-calendar normalization).  The local timezone is taken as UTC, so
`toISOString().split('T')[0]` renders the civil date itself. -/

def matchDateShapeAt (cs : List Char) : Option (List Char) :=
  let d1 := cs.takeWhile isAsciiDigit
  if d1.length = 0 ∨ 2 < d1.length then none
  else
    match cs.drop d1.length with
    | s1 :: r1 =>
      if s1 = '/' ∨ s1 = '-' then
        let d2 := r1.takeWhile isAsciiDigit
        if d2.length = 0 ∨ 2 < d2.length then none
        else
          match r1.drop d2.length with
          | s2 :: r2 =>
            if s2 = '/' ∨ s2 = '-' then
              let d3 := r2.takeWhile isAsciiDigit
              if d3.length < 2 then none
              else some (d1 ++ [s1] ++ d2 ++ [s2] ++ d3.take 4)
            else none
          | [] => none
      else none
    | [] => none

/-- Leftmost match of the date-shape regex (`line.match(...)`). -/
def scanDateShape : List Char → Option (List Char)
  | [] => none
  | c :: cs =>
    match matchDateShapeAt (c :: cs) with
    | some m => some m
    | none => scanDateShape cs

/-- Days since 1970-01-01 of a civil date (Gregorian, proleptic). -/
def daysFromCivil (y : Int) (m : Nat) (d : Nat) : Int :=
  let y2 := if m ≤ 2 then y - 1 else y
  let era : Int := (if 0 ≤ y2 then y2 else y2 - 399) / 400
  let yoe := (y2 - era * 400).toNat
  let mp := (m + 9) % 12
  let doy := (153 * mp + 2) / 5 + d - 1
  let doe := yoe * 365 + yoe / 4 - yoe / 100 + doy
  era * 146097 + (doe : Int) - 719468

/-- Civil date of a days-since-epoch count. -/
def civilFromDays (z0 : Int) : Int × Nat × Nat :=
  let z := z0 + 719468
  let era : Int := (if 0 ≤ z then z else z - 146096) / 146097
  let doe := (z - era * 146097).toNat
  let yoe := (doe - doe / 1460 + doe / 36524 - doe / 146096) / 365
  let y : Int := (yoe : Int) + era * 400
  let doy := doe - (365 * yoe + yoe / 4 - yoe / 100)
  let mp := (5 * doy + 2) / 153
  let d := doy - (153 * mp + 2) / 5 + 1
  let m := if mp < 10 then mp + 3 else mp - 9
  ((if m ≤ 2 then y + 1 else y), m, d)

/-- `new Date("M/D/Y")`: component range checks, two-digit-year mapping,
and day rollover via the civil-calendar round trip. -/
def jsDateParse (mStr dStr yStr : List Char) : Option (Int × Nat × Nat) :=
  let m := digitsToNat mStr
  let d := digitsToNat dStr
  let y0 := digitsToNat yStr
  let y : Int :=
    if yStr.length ≤ 2 then (if y0 < 50 then 2000 + (y0 : Int) else 1900 + (y0 : Int))
    else (y0 : Int)
  if 1 ≤ m ∧ m ≤ 12 ∧ 1 ≤ d ∧ d ≤ 31 then
    some (civilFromDays (daysFromCivil y m d))
  else none

/-- `new Date(text)` on a matched `M/D/Y`-shaped text. -/
def jsNewDateMDY (text : List Char) : Option (Int × Nat × Nat) :=
  let p1 := text.takeWhile isAsciiDigit
  let r1 := (text.dropWhile isAsciiDigit).drop 1
  let p2 := r1.takeWhile isAsciiDigit
  let r2 := (r1.dropWhile isAsciiDigit).drop 1
  let p3 := r2.takeWhile isAsciiDigit
  jsDateParse p1 p2 p3

def pad2 (n : Nat) : String := if n < 10 then "0" ++ toString n else toString n

def pad4 (y : Int) : String :=
  let n := y.toNat
  (if n < 10 then "000" else if n < 100 then "00" else if n < 1000 then "0" else "") ++
    toString n

/-- `toISOString().split('T')[0]` (UTC model). -/
def toISODate (ymd : Int × Nat × Nat) : String :=
  pad4 ymd.1 ++ "-" ++ pad2 ymd.2.1 ++ "-" ++ pad2 ymd.2.2

/-- One line of `extractDate`: if the date shape matches and parses to a
valid date, its ISO rendering; otherwise nothing — in particular a matched
but unparsable candidate yields nothing, so scanning continues with the
next line (the raw matched substring is never returned). -/
def extractDateLine (line : String) : Option String :=
  match scanDateShape line.toList with
  | none => none
  | some text =>
    match jsNewDateMDY text with
    | some ymd => some (toISODate ymd)
    | none => none

/-- Embedding of `DynamicPatternParser.extractDate`; `today` models
`new Date().toISOString().split('T')[0]` at extraction time. -/
def extractDateDyn (lines : List String) (today : String) : String :=
  (firstSomeStr extractDateLine (lines.take 25)).getD today

theorem firstSomeStr_none (f : String → Option String) :
    ∀ ls : List String, (∀ l ∈ ls, f l = none) → firstSomeStr f ls = none := by
  intro ls h
  induction ls with
  | nil => rfl
  | cons l ls ih =>
    have hl : f l = none := h l (List.mem_cons_self l ls)
    have : firstSomeStr f (l :: ls) = firstSomeStr f ls := by
      simp only [firstSomeStr, hl]
    rw [this]
    exact ih (fun x hx => h x (List.mem_cons_of_mem l hx))

/-- C8 counterexample: the line "Date: 99/99/99" contains a date-shaped
substring (the regex matches "99/99/99"), but the parse fails (month 99),
and `extractDate` returns the current-date default — NOT the raw matched
substring as the claim states. -/
theorem C8_counterexample :
    scanDateShape ("Date: 99/99/99".toList) = some ("99/99/99".toList) ∧
    extractDateDyn ["Date: 99/99/99"] "2026-10-11" = "2026-10-11" ∧
    extractDateDyn ["Date: 99/99/99"] "2026-10-11" ≠ "99/99/99" := by
  refine ⟨by decide, by decide, by decide⟩

/-- C8 amended: date extraction is best-effort and never blocks, but a
date-shaped substring that fails to parse is skipped rather than returned
raw: (1) extraction is total — it always returns a string (never raises);
(2) when no date-shaped substring occurs in the first 25 lines, the result
is the current date `today`; (3) a line whose match fails to parse
contributes nothing, so with only such lines the result is again `today`
("Date: 99/99/99" is skipped, its raw match is not returned); (4) a line
whose match parses returns its ISO rendering ("12/31/2020" gives
"2020-12-31"). -/
theorem C8_date_extraction :
    (∀ lines today, ∃ s, extractDateDyn lines today = s) ∧
    (∀ lines today, (∀ l ∈ lines.take 25, scanDateShape l.toList = none) →
      extractDateDyn lines today = today) ∧
    (extractDateDyn ["Date: 99/99/99"] "2026-10-11" = "2026-10-11" ∧
      extractDateLine "Date: 99/99/99" = none) ∧
    extractDateDyn ["Date: 12/31/2020"] "2026-01-01" = "2020-12-31" := by
  refine ⟨fun lines today => ⟨_, rfl⟩, ?_, ⟨by decide, by decide⟩, by decide⟩
  intro lines today h
  have hnone : ∀ l ∈ lines.take 25, extractDateLine l = none := by
    intro l hl
    have := h l hl
    simp only [extractDateLine, this]
  unfold extractDateDyn
  rw [firstSomeStr_none extractDateLine (lines.take 25) hnone]
  rfl

theorem C8_witness :
    (∀ l ∈ (["no date here"] : List String).take 25, scanDateShape l.toList = none) ∧
    extractDateDyn ["no date here"] "2026-10-11" = "2026-10-11" :=
  ⟨by decide, C8_date_extraction.2.1 ["no date here"] "2026-10-11" (by decide)⟩
